import Mathlib

/-!
# elastigo search DSL: query, filter and sort builders and their JSON marshalling

A shallow embedding of `lib/searchfilter.go`, `lib/searchquery.go` and
`lib/searchsort.go`.

Conventions of the embedding.

* The output of a marshaller is the JSON value its bytes denote (`Json`, objects with
  their members in emission order). `none` stands for a non-nil `error`.
* A Go `map[string]T` is an association list (`GoMap`); `encoding/json` writes map
  members sorted by key, which `sortKeys` does.
* A pointer is an `Option` (`none` is the nil pointer); pointees are values, so sharing
  between two pointers and cyclic structures are outside the model.
* A builder method that can panic returns an `Option` (`none` is the panic).
* `interface{}` is `GoValue`: the dynamic types this package handles, plus `other`,
  a value of any further type given by what `json.Marshal` returns for it.
-/

namespace Elastigo

/-- JSON values. `float bits` is the number `encoding/json` writes for the finite
float64 with that IEEE-754 bit pattern. -/
inductive Json where
  | null
  | bool (b : Bool)
  | int (n : Int)
  | float (bits : Nat)
  | str (s : String)
  | arr (xs : List Json)
  | obj (kvs : List (String × Json))

/-- Go `map[string]T`, as an association list (first binding of a key counts). -/
abbrev GoMap (α : Type) := List (String × α)

/-- Map read `m[k]`, with the comma-ok flag as `Option`. -/
def GoMap.get? {α : Type} : GoMap α → String → Option α
  | [], _ => none
  | (k, v) :: m, key => if k = key then some v else GoMap.get? m key

/-- Map write `m[k] = v`. -/
def GoMap.set {α : Type} : GoMap α → String → α → GoMap α
  | [], key, v => [(key, v)]
  | (k, w) :: m, key, v => if k = key then (k, v) :: m else (k, w) :: GoMap.set m key v

/-- Go string comparison `a < b`: bytewise on the UTF-8 encodings, which is the
lexicographic order of the code points. -/
def keyLt : List Char → List Char → Bool
  | [], [] => false
  | [], _ :: _ => true
  | _ :: _, [] => false
  | a :: as, b :: bs =>
    if a.toNat < b.toNat then true else if b.toNat < a.toNat then false else keyLt as bs

/-- Insert one member into a key-sorted member list. -/
def insertKey (kv : String × Json) : List (String × Json) → List (String × Json)
  | [] => [kv]
  | h :: t => if keyLt kv.1.data h.1.data then kv :: h :: t else h :: insertKey kv t

/-- Members of a map in the order `encoding/json` writes them: sorted by key. -/
def sortKeys : List (String × Json) → List (String × Json)
  | [] => []
  | kv :: t => insertKey kv (sortKeys t)

/-- Encoding of a `map[string]string`. -/
def marshalStrMap (m : GoMap String) : Json :=
  Json.obj (sortKeys (m.map fun kv => (kv.1, Json.str kv.2)))

/-- A struct member tagged `omitempty`: written only when `present`. -/
def omitEmpty (present : Bool) (key : String) (j : Json) : List (String × Json) :=
  if present then [(key, j)] else []

/-- The parts of the Go runtime that stay abstract: `fmtF bits` is what `fmt` prints for
`%f` on the float32 with these bits, and `compact text` is the value `encoding/json`
accepts when a `MarshalJSON` method returns `text` (`none` when it rejects the text). -/
structure GoRuntime where
  fmtF : Nat → String
  compact : String → Option Json

/-- A float64 by its IEEE-754 bits. -/
structure Float64 where
  bits : Nat

/-- The test `x == 0` (either sign of zero). -/
def Float64.isZero (x : Float64) : Bool := x.bits % 2 ^ 63 == 0

/-- NaN and the infinities, which `encoding/json` refuses. -/
def Float64.isFinite (x : Float64) : Bool := (x.bits / 2 ^ 52) % 2 ^ 11 != 2047

structure MatchAll where
  All : String

structure QueryString where
  DefaultOperator : String
  DefaultField : String
  Query : String
  Exists : String
  Missing : String
  Fields : List String

structure GeoDistanceRange where
  From : String
  To : String
  FieldName : String
  DistanceType : String
  Lat : Nat
  Lon : Nat

structure InnerHitsOptions where
  From : Int
  Size : Int

mutual
/-- A dynamic value held in an `interface{}`. -/
inductive GoValue where
  | nil
  | str (s : String)
  | boolClause (s : String)
  | int (n : Int)
  | bool (b : Bool)
  | slice (xs : Option (List GoValue))
  | filterOp (f : Option FilterOp)
  | filterWrap (w : Option FilterWrap)
  | queryDsl (q : Option QueryDsl)
  | other (enc : Option Json)
inductive FilterWrap where
  | mk (boolClause : String) (filters : List GoValue)
inductive NestedDsl where
  | mk (FilterOp : Option FilterOp) (Path : String) (Inner : Option InnerHitsOptions)
inductive FilterOp where
  | mk (curField : String)
       (TermMap : GoMap String)
       (TermsMap : List (String × Option (List GoValue)))
       (Range : Option (List (String × Option (List (String × GoValue)))))
       (Exist : GoMap String)
       (PrefixVal : GoMap String)
       (MisssingVal : GoMap String)
       (RegexpMap : GoMap String)
       (GeoDistRange : Option GeoDistanceRange)
       (Bools : Option FilterBoolDsl)
       (NestedD : Option NestedDsl)
       (QueryD : Option QueryDsl)
inductive FilterBoolDsl where
  | mk (Must : List (Option FilterOp)) (Should : List (Option FilterOp))
inductive QueryDsl where
  | mk (QueryEmbed : QueryEmbed) (FilterVal : Option FilterOp)
       (FilterWrapVal : Option FilterWrap)
inductive QueryEmbed where
  | mk (MatchAll : Option MatchAll)
       (Terms : GoMap String)
       (Qs : Option QueryString)
       (Prefx : GoMap String)
       (Bools : Option BoolDsl)
       (ConstantScores : Option ConstantScoreDsl)
       (FunctionScore : List (String × GoValue))
inductive BoolDsl where
  | mk (Must : List (Option QueryDsl)) (Should : List (Option QueryDsl))
inductive ConstantScoreDsl where
  | mk (Filter : Option FilterOp) (Boost : Float64)
end

/-- Source: `GeoDistanceRange.MarshalJSON`, the text built by `fmt.Sprintf`. -/
def GeoDistanceRange.MarshalJSON (rt : GoRuntime) (gd : GeoDistanceRange) : String :=
  "\x7b \"from\": \"" ++ gd.From ++ "\", \"to\": \"" ++ gd.To ++ "\", \"" ++ gd.FieldName
    ++ "\": \x7b \"lat\": " ++ rt.fmtF gd.Lat ++ ", \"lon\": " ++ rt.fmtF gd.Lon
    ++ "\x7d, \"distance_type\": \"" ++ gd.DistanceType ++ "\" \x7d"

/-- Encoding of a `QueryString` struct: every member is `omitempty`. -/
def marshalQueryString (qs : QueryString) : Json :=
  Json.obj (
    omitEmpty (qs.DefaultOperator != "") "default_operator" (Json.str qs.DefaultOperator)
    ++ omitEmpty (qs.DefaultField != "") "default_field" (Json.str qs.DefaultField)
    ++ omitEmpty (qs.Query != "") "query" (Json.str qs.Query)
    ++ omitEmpty (qs.Exists != "") "_exists_" (Json.str qs.Exists)
    ++ omitEmpty (qs.Missing != "") "_missing_" (Json.str qs.Missing)
    ++ omitEmpty (!qs.Fields.isEmpty) "fields" (Json.arr (qs.Fields.map Json.str)))

/-- Encoding of an `InnerHitsOptions` struct. -/
def marshalInnerHits (o : InnerHitsOptions) : Json :=
  Json.obj [("from", Json.int o.From), ("size", Json.int o.Size)]

/-- Source, `QueryDsl.MarshalJSON`: the value denoted by the bytes that `fmt.Sprintf`
writes from the `filtered` template around `queryB` and `filterB`. -/
def filtered (queryB filterB : Json) : Json :=
  Json.obj [("filtered", Json.obj [("query", queryB), ("filter", filterB)])]

/-- Source, `QueryDsl.MarshalJSON`: the `hasQuery` flag. -/
def hasQuery : QueryEmbed → Bool
  | .mk matchAll terms qs prefx bools _ _ =>
    bools.isSome || qs.isSome || decide (terms.length > 0) || decide (prefx.length > 0)
      || matchAll.isSome

mutual
/-- `json.Marshal` of an `interface{}` value. -/
def marshalValue (rt : GoRuntime) : GoValue → Option Json
  | .nil => some Json.null
  | .str s => some (Json.str s)
  | .boolClause s => some (Json.str s)
  | .int n => some (Json.int n)
  | .bool b => some (Json.bool b)
  | .slice none => some Json.null
  | .slice (some xs) => (marshalValues rt xs).map Json.arr
  | .filterOp none => some Json.null
  | .filterOp (some f) => marshalFilterOp rt f
  | .filterWrap none => some Json.null
  | .filterWrap (some w) => FilterWrap.MarshalJSON rt w
  | .queryDsl none => some Json.null
  | .queryDsl (some q) => QueryDsl.MarshalJSON rt q
  | .other enc => enc
/-- Elements of a `[]interface{}`, in order. -/
def marshalValues (rt : GoRuntime) : List GoValue → Option (List Json)
  | [] => some []
  | v :: vs =>
    match marshalValue rt v, marshalValues rt vs with
    | some j, some js => some (j :: js)
    | _, _ => none
/-- Members of a `map[string]interface{}`, before key sorting. -/
def marshalMembers (rt : GoRuntime) : List (String × GoValue) → Option (List (String × Json))
  | [] => some []
  | (k, v) :: m =>
    match marshalValue rt v, marshalMembers rt m with
    | some j, some js => some ((k, j) :: js)
    | _, _ => none
/-- Members of a `map[string][]interface{}`, before key sorting. -/
def marshalTermsMap (rt : GoRuntime) :
    List (String × Option (List GoValue)) → Option (List (String × Json))
  | [] => some []
  | (k, none) :: m => (marshalTermsMap rt m).map fun js => (k, Json.null) :: js
  | (k, some vs) :: m =>
    match marshalValues rt vs, marshalTermsMap rt m with
    | some j, some js => some ((k, Json.arr j) :: js)
    | _, _ => none
/-- Members of a `map[string]map[string]interface{}`, before key sorting. -/
def marshalRange (rt : GoRuntime) :
    List (String × Option (List (String × GoValue))) → Option (List (String × Json))
  | [] => some []
  | (k, none) :: m => (marshalRange rt m).map fun js => (k, Json.null) :: js
  | (k, some b) :: m =>
    match marshalMembers rt b, marshalRange rt m with
    | some j, some js => some ((k, Json.obj (sortKeys j)) :: js)
    | _, _ => none
/-- Elements of a `[]*FilterOp`. -/
def marshalFilterOps (rt : GoRuntime) : List (Option FilterOp) → Option (List Json)
  | [] => some []
  | none :: fs => (marshalFilterOps rt fs).map fun js => Json.null :: js
  | some f :: fs =>
    match marshalFilterOp rt f, marshalFilterOps rt fs with
    | some j, some js => some (j :: js)
    | _, _ => none
/-- Elements of a `[]*QueryDsl`. -/
def marshalQueryDsls (rt : GoRuntime) : List (Option QueryDsl) → Option (List Json)
  | [] => some []
  | none :: qs => (marshalQueryDsls rt qs).map fun js => Json.null :: js
  | some q :: qs =>
    match QueryDsl.MarshalJSON rt q, marshalQueryDsls rt qs with
    | some j, some js => some (j :: js)
    | _, _ => none
/-- Encoding of a `FilterBoolDsl` struct. -/
def marshalFilterBoolDsl (rt : GoRuntime) : FilterBoolDsl → Option Json
  | .mk must should =>
    match marshalFilterOps rt must, marshalFilterOps rt should with
    | some m, some s =>
      some (Json.obj (omitEmpty (!must.isEmpty) "must" (Json.arr m)
        ++ omitEmpty (!should.isEmpty) "should" (Json.arr s)))
    | _, _ => none
/-- Encoding of a `NestedDsl` struct. -/
def marshalNestedDsl (rt : GoRuntime) : NestedDsl → Option Json
  | .mk none path inner =>
    some (Json.obj (omitEmpty (path != "") "path" (Json.str path)
      ++ (match inner with
          | none => []
          | some o => [("inner_hits", marshalInnerHits o)])))
  | .mk (some f) path inner =>
    match marshalFilterOp rt f with
    | some j =>
      some (Json.obj ([("filter", j)] ++ omitEmpty (path != "") "path" (Json.str path)
        ++ (match inner with
            | none => []
            | some o => [("inner_hits", marshalInnerHits o)])))
    | none => none
/-- Encoding of a `FilterOp` struct: exported members in declaration order, each
`omitempty`. -/
def marshalFilterOp (rt : GoRuntime) : FilterOp → Option Json
  | .mk _ termMap termsMap range exist prefixVal misssingVal regexpMap geo bools nested
      queryD =>
    match marshalTermsMap rt termsMap,
        (match range with
          | none => some []
          | some r => marshalRange rt r),
        (match geo with
          | none => some []
          | some g => (rt.compact (g.MarshalJSON rt)).map fun j => [("geo_distance_range", j)]),
        (match bools with
          | none => some []
          | some b => (marshalFilterBoolDsl rt b).map fun j => [("bool", j)]),
        (match nested with
          | none => some []
          | some n => (marshalNestedDsl rt n).map fun j => [("nested", j)]),
        (match queryD with
          | none => some []
          | some q => (QueryDsl.MarshalJSON rt q).map fun j => [("query", j)]) with
    | some terms, some rng, some g, some b, some n, some q =>
      some (Json.obj (
        omitEmpty (!termMap.isEmpty) "term" (marshalStrMap termMap)
        ++ omitEmpty (!termsMap.isEmpty) "terms" (Json.obj (sortKeys terms))
        ++ omitEmpty (!rng.isEmpty) "range" (Json.obj (sortKeys rng))
        ++ omitEmpty (!exist.isEmpty) "exists" (marshalStrMap exist)
        ++ omitEmpty (!prefixVal.isEmpty) "prefix" (marshalStrMap prefixVal)
        ++ omitEmpty (!misssingVal.isEmpty) "missing" (marshalStrMap misssingVal)
        ++ omitEmpty (!regexpMap.isEmpty) "regexp" (marshalStrMap regexpMap)
        ++ g ++ b ++ n ++ q))
    | _, _, _, _, _, _ => none
/-- Source: `FilterWrap.MarshalJSON`. -/
def FilterWrap.MarshalJSON (rt : GoRuntime) : FilterWrap → Option Json
  | .mk boolClause filters =>
    if filters.length > 1 then
      (marshalValues rt filters).map fun js => Json.obj [(boolClause, Json.arr js)]
    else
      match filters with
      | x :: _ => marshalValue rt x
      | [] => some Json.null
/-- Encoding of a `BoolDsl` struct. -/
def marshalBoolDsl (rt : GoRuntime) : BoolDsl → Option Json
  | .mk must should =>
    match marshalQueryDsls rt must, marshalQueryDsls rt should with
    | some m, some s =>
      some (Json.obj (omitEmpty (!must.isEmpty) "must" (Json.arr m)
        ++ omitEmpty (!should.isEmpty) "should" (Json.arr s)))
    | _, _ => none
/-- Encoding of a `ConstantScoreDsl` struct. -/
def marshalConstantScoreDsl (rt : GoRuntime) : ConstantScoreDsl → Option Json
  | .mk filter boost =>
    match (match filter with
          | none => some []
          | some f => (marshalFilterOp rt f).map fun j => [("filter", j)]) with
    | some f =>
      if boost.isZero then some (Json.obj f)
      else if boost.isFinite then some (Json.obj (f ++ [("boost", Json.float boost.bits)]))
      else none
    | none => none
/-- `json.Marshal(q)` for the `QueryEmbed` struct: members in declaration order, each
`omitempty`. -/
def marshalQueryEmbed (rt : GoRuntime) : QueryEmbed → Option Json
  | .mk matchAll terms qs prefx bools constantScores functionScore =>
    match (match bools with
          | none => some []
          | some b => (marshalBoolDsl rt b).map fun j => [("bool", j)]),
        (match constantScores with
          | none => some []
          | some c => (marshalConstantScoreDsl rt c).map fun j => [("constant_score", j)]),
        marshalMembers rt functionScore with
    | some b, some c, some fs =>
      some (Json.obj (
        omitEmpty matchAll.isSome "match_all" (Json.obj [])
        ++ omitEmpty (!terms.isEmpty) "term" (marshalStrMap terms)
        ++ (match qs with
            | none => []
            | some s => [("query_string", marshalQueryString s)])
        ++ omitEmpty (!prefx.isEmpty) "prefix" (marshalStrMap prefx)
        ++ b ++ c
        ++ omitEmpty (!functionScore.isEmpty) "function_score" (Json.obj (sortKeys fs))))
    | _, _, _ => none
/-- Source: `QueryDsl.MarshalJSON`. -/
def QueryDsl.MarshalJSON (rt : GoRuntime) : QueryDsl → Option Json
  | .mk q filterVal filterWrapVal =>
    if (filterWrapVal.isSome || filterVal.isSome) && hasQuery q then
      match marshalQueryEmbed rt q with
      | none => none
      | some queryB =>
        match filterVal, filterWrapVal with
        | some f, _ => (marshalFilterOp rt f).map fun filterB => filtered queryB filterB
        | none, some w => (FilterWrap.MarshalJSON rt w).map fun filterB => filtered queryB filterB
        | none, none => none
    else marshalQueryEmbed rt q
end

/-! ## Filters: `searchfilter.go` -/

def FilterWrap.boolClause : FilterWrap → String
  | .mk boolClause _ => boolClause

def FilterWrap.filters : FilterWrap → List GoValue
  | .mk _ filters => filters

/-- Source: `NewFilterWrap`. -/
def NewFilterWrap : FilterWrap := FilterWrap.mk "and" []

/-- Source: `FilterWrap.addFilters`. The type switch takes a first item of dynamic type
`BoolClause` or `string`; the assertion `fc.(string)` that follows panics on a
`BoolClause`. -/
def FilterWrap.addFilters : FilterWrap → List GoValue → Option FilterWrap
  | .mk boolClause filters, fl =>
    if fl.length > 1 then
      match fl with
      | GoValue.boolClause _ :: _ => none
      | GoValue.str s :: rest => some (FilterWrap.mk s (filters ++ rest))
      | _ => some (FilterWrap.mk boolClause (filters ++ fl))
    else some (FilterWrap.mk boolClause (filters ++ fl))

/-- Source: `CompoundFilter`. -/
def CompoundFilter (fl : List GoValue) : Option FilterWrap :=
  NewFilterWrap.addFilters fl

def FilterOp.curField : FilterOp → String
  | .mk c _ _ _ _ _ _ _ _ _ _ _ => c

def FilterOp.TermMap : FilterOp → GoMap String
  | .mk _ x _ _ _ _ _ _ _ _ _ _ => x

def FilterOp.TermsMap : FilterOp → List (String × Option (List GoValue))
  | .mk _ _ x _ _ _ _ _ _ _ _ _ => x

def FilterOp.Range : FilterOp → Option (List (String × Option (List (String × GoValue))))
  | .mk _ _ _ x _ _ _ _ _ _ _ _ => x

def FilterOp.Exist : FilterOp → GoMap String
  | .mk _ _ _ _ x _ _ _ _ _ _ _ => x

def FilterOp.PrefixVal : FilterOp → GoMap String
  | .mk _ _ _ _ _ x _ _ _ _ _ _ => x

def FilterOp.MisssingVal : FilterOp → GoMap String
  | .mk _ _ _ _ _ _ x _ _ _ _ _ => x

def FilterOp.RegexpMap : FilterOp → GoMap String
  | .mk _ _ _ _ _ _ _ x _ _ _ _ => x

def FilterOp.GeoDistRange : FilterOp → Option GeoDistanceRange
  | .mk _ _ _ _ _ _ _ _ x _ _ _ => x

def FilterOp.Bools : FilterOp → Option FilterBoolDsl
  | .mk _ _ _ _ _ _ _ _ _ x _ _ => x

def FilterOp.NestedD : FilterOp → Option NestedDsl
  | .mk _ _ _ _ _ _ _ _ _ _ x _ => x

def FilterOp.QueryD : FilterOp → Option QueryDsl
  | .mk _ _ _ _ _ _ _ _ _ _ _ x => x

/-- Source: `Filter`, the zero `FilterOp` (every map nil). -/
def Filter : FilterOp :=
  FilterOp.mk "" [] [] none [] [] [] [] none none none none

/-- Source: `Range`, a `FilterOp` whose range map is allocated. -/
def Range : FilterOp :=
  FilterOp.mk "" [] [] (some []) [] [] [] [] none none none none

/-- Source: `FilterOp.Field`. Writing to a nil range map panics. -/
def FilterOp.Field : FilterOp → String → Option FilterOp
  | .mk _ tm tsm range ex pv mv rm geo bools nested qd, fld =>
    match range with
    | none => none
    | some r =>
      match GoMap.get? r fld with
      | some _ => some (FilterOp.mk fld tm tsm (some r) ex pv mv rm geo bools nested qd)
      | none =>
        some (FilterOp.mk fld tm tsm (some (GoMap.set r fld (some []))) ex pv mv rm geo bools
          nested qd)

/-- The statement `f.Range[f.curField][key] = v` shared by `From`, `To`, `Gt`, `Gte`,
`Lte` and `Lt`: the entry of the current field is read (nil when the range map is nil or
has no such field) and written to, which panics on a nil entry. -/
def FilterOp.setBound : FilterOp → String → GoValue → Option FilterOp
  | .mk cur tm tsm range ex pv mv rm geo bools nested qd, key, v =>
    match range with
    | none => none
    | some r =>
      match GoMap.get? r cur with
      | some (some b) =>
        some (FilterOp.mk cur tm tsm (some (GoMap.set r cur (some (GoMap.set b key v)))) ex pv mv
          rm geo bools nested qd)
      | _ => none

/-- Source: `FilterOp.From`. -/
def FilterOp.From (f : FilterOp) (frm : String) : Option FilterOp :=
  f.setBound "from" (GoValue.str frm)

/-- Source: `FilterOp.To`. -/
def FilterOp.To (f : FilterOp) (upto : String) : Option FilterOp :=
  f.setBound "to" (GoValue.str upto)

/-- Source: `FilterOp.Gt`. -/
def FilterOp.Gt (f : FilterOp) (gt : GoValue) : Option FilterOp := f.setBound "gt" gt

/-- Source: `FilterOp.Gte`. -/
def FilterOp.Gte (f : FilterOp) (gt : GoValue) : Option FilterOp := f.setBound "gte" gt

/-- Source: `FilterOp.Lte`. -/
def FilterOp.Lte (f : FilterOp) (lt : GoValue) : Option FilterOp := f.setBound "lte" lt

/-- Source: `FilterOp.Lt`. -/
def FilterOp.Lt (f : FilterOp) (lt : GoValue) : Option FilterOp := f.setBound "lt" lt

/-- Source: `FilterOp.Term`. A map of length 0 is replaced by a fresh one first. -/
def FilterOp.Term : FilterOp → String → String → FilterOp
  | .mk cur tm tsm range ex pv mv rm geo bools nested qd, name, value =>
    FilterOp.mk cur (GoMap.set (if tm.length = 0 then [] else tm) name value) tsm range ex pv mv
      rm geo bools nested qd

/-- The slice read `m[field]` of a `map[string][]interface{}`: nil when absent. -/
def termsAt (m : List (String × Option (List GoValue))) (field : String) :
    Option (List GoValue) :=
  (GoMap.get? m field).join

/-- Go `append(s, v)` on a possibly nil slice. -/
def appendValue (s : Option (List GoValue)) (v : GoValue) : Option (List GoValue) :=
  some (s.getD [] ++ [v])

/-- Source, `FilterOp.Terms`: the loop over `values` whose body is
`f.TermsMap[field] = append(f.TermsMap[field], val)`. -/
def termsLoop (field : String) :
    List (String × Option (List GoValue)) → List GoValue →
      List (String × Option (List GoValue))
  | m, [] => m
  | m, val :: values =>
    termsLoop field (GoMap.set m field (appendValue (termsAt m field) val)) values

/-- Source: `FilterOp.Terms`. -/
def FilterOp.Terms : FilterOp → String → List GoValue → FilterOp
  | .mk cur tm tsm range ex pv mv rm geo bools nested qd, field, values =>
    FilterOp.mk cur tm (termsLoop field (if tsm.length = 0 then [] else tsm) values) range ex pv
      mv rm geo bools nested qd

/-- Source: `FilterOp.Exists`. -/
def FilterOp.Exists : FilterOp → String → FilterOp
  | .mk cur tm tsm range _ pv mv rm geo bools nested qd, name =>
    FilterOp.mk cur tm tsm range [("field", name)] pv mv rm geo bools nested qd

/-- Source: `FilterOp.Regexp`. -/
def FilterOp.Regexp : FilterOp → String → String → FilterOp
  | .mk cur tm tsm range ex pv mv _ geo bools nested qd, name, regexp =>
    FilterOp.mk cur tm tsm range ex pv mv [(name, regexp)] geo bools nested qd

/-- Source: `FilterOp.Missing`. -/
def FilterOp.Missing : FilterOp → String → FilterOp
  | .mk cur tm tsm range ex pv _ rm geo bools nested qd, name =>
    FilterOp.mk cur tm tsm range ex pv [("field", name)] rm geo bools nested qd

/-- Source: `FilterOp.Prefix`. -/
def FilterOp.Prefix : FilterOp → String → String → FilterOp
  | .mk cur tm tsm range ex _ mv rm geo bools nested qd, field, val =>
    FilterOp.mk cur tm tsm range ex [(field, val)] mv rm geo bools nested qd

/-- Source: `FilterOp.GeoDistanceRange`. -/
def FilterOp.GeoDistanceRange : FilterOp → String → String → String → String → Nat → Nat →
    FilterOp
  | .mk cur tm tsm range ex pv mv rm _ bools nested qd, frm, upto, fieldName, distanceType,
      lat, lon =>
    FilterOp.mk cur tm tsm range ex pv mv rm
      (some ⟨frm, upto, fieldName, distanceType, lat, lon⟩) bools nested qd

/-- Source: `FilterOp.Bool`. -/
def FilterOp.Bool : FilterOp → List (Option FilterOp) → List (Option FilterOp) → FilterOp
  | .mk cur tm tsm range ex pv mv rm geo _ nested qd, must, should =>
    FilterOp.mk cur tm tsm range ex pv mv rm geo (some (FilterBoolDsl.mk must should)) nested qd

/-- Source: `FilterOp.Query`. -/
def FilterOp.Query : FilterOp → Option QueryDsl → FilterOp
  | .mk cur tm tsm range ex pv mv rm geo bools nested _, q =>
    FilterOp.mk cur tm tsm range ex pv mv rm geo bools nested q

/-- Source: `FilterOp.Nested`. -/
def FilterOp.Nested : FilterOp → String → Option FilterOp → Int → Int → FilterOp
  | .mk cur tm tsm range ex pv mv rm geo bools _ qd, path, query, frm, size =>
    FilterOp.mk cur tm tsm range ex pv mv rm geo bools
      (some (NestedDsl.mk query path (if size > 0 then some ⟨frm, size⟩ else none))) qd

/-- The length of the range map (0 for a nil map). -/
def rangeLen (r : Option (List (String × Option (List (String × GoValue))))) : Nat :=
  (r.getD []).length

/-- Source: `FilterOp.Add`. -/
def FilterOp.Add : FilterOp → FilterOp → FilterOp
  | .mk cur tm tsm range ex pv mv rm geo bools nested qd, fop =>
    FilterOp.mk cur tm tsm (if rangeLen fop.Range > 0 then fop.Range else range)
      (if fop.Exist.length > 0 then fop.Exist else ex) pv
      (if fop.MisssingVal.length > 0 then fop.MisssingVal else mv) rm geo bools nested qd

/-! ## Queries: `searchquery.go` -/

def QueryDsl.QueryEmbed : QueryDsl → QueryEmbed
  | .mk q _ _ => q

def QueryDsl.FilterVal : QueryDsl → Option FilterOp
  | .mk _ f _ => f

def QueryDsl.FilterWrapVal : QueryDsl → Option FilterWrap
  | .mk _ _ w => w

def QueryEmbed.MatchAll : QueryEmbed → Option MatchAll
  | .mk x _ _ _ _ _ _ => x

def QueryEmbed.Terms : QueryEmbed → GoMap String
  | .mk _ x _ _ _ _ _ => x

def QueryEmbed.Qs : QueryEmbed → Option QueryString
  | .mk _ _ x _ _ _ _ => x

def QueryEmbed.Prefx : QueryEmbed → GoMap String
  | .mk _ _ _ x _ _ _ => x

def QueryEmbed.Bools : QueryEmbed → Option BoolDsl
  | .mk _ _ _ _ x _ _ => x

def QueryEmbed.ConstantScores : QueryEmbed → Option ConstantScoreDsl
  | .mk _ _ _ _ _ x _ => x

def QueryEmbed.FunctionScore : QueryEmbed → List (String × GoValue)
  | .mk _ _ _ _ _ _ x => x

/-- Source: `Query`, the zero `QueryDsl`. -/
def Query : QueryDsl :=
  QueryDsl.mk (QueryEmbed.mk none [] none [] none none []) none none

/-- Source: `QueryDsl.All`. -/
def QueryDsl.All : QueryDsl → QueryDsl
  | .mk (.mk _ terms qs prefx bools cs fs) fv fwv =>
    QueryDsl.mk (QueryEmbed.mk (some ⟨""⟩) terms qs prefx bools cs fs) fv fwv

/-- Source: `QueryDsl.Range`. With a filter already attached the argument is
dereferenced by `Add`, which panics on a nil pointer. -/
def QueryDsl.Range : QueryDsl → Option FilterOp → Option QueryDsl
  | .mk q none fwv, fop => some (QueryDsl.mk q fop fwv)
  | .mk q (some g) fwv, some fop => some (QueryDsl.mk q (some (g.Add fop)) fwv)
  | .mk _ (some _) _, none => none

/-- Source: `QueryDsl.Term`. -/
def QueryDsl.Term : QueryDsl → String → String → QueryDsl
  | .mk (.mk ma terms qs prefx bools cs fs) fv fwv, name, value =>
    QueryDsl.mk
      (QueryEmbed.mk ma (GoMap.set (if terms.length = 0 then [] else terms) name value) qs prefx
        bools cs fs) fv fwv

/-- Source: `QueryDsl.Prefix`. -/
def QueryDsl.Prefix : QueryDsl → String → String → QueryDsl
  | .mk (.mk ma terms qs prefx bools cs fs) fv fwv, name, value =>
    QueryDsl.mk
      (QueryEmbed.mk ma terms qs (GoMap.set (if prefx.length = 0 then [] else prefx) name value)
        bools cs fs) fv fwv

/-- Source: `QueryDsl.Bool`. -/
def QueryDsl.Bool : QueryDsl → List (Option QueryDsl) → List (Option QueryDsl) → QueryDsl
  | .mk (.mk ma terms qs prefx _ cs fs) fv fwv, must, should =>
    QueryDsl.mk (QueryEmbed.mk ma terms qs prefx (some (BoolDsl.mk must should)) cs fs) fv fwv

/-- Source: `QueryDsl.ConstantScore`. -/
def QueryDsl.ConstantScore : QueryDsl → Option FilterOp → Float64 → QueryDsl
  | .mk (.mk ma terms qs prefx bools _ fs) fv fwv, filter, boost =>
    QueryDsl.mk
      (QueryEmbed.mk ma terms qs prefx bools (some (ConstantScoreDsl.mk filter boost)) fs) fv fwv

/-- Source: `NewQueryString`. -/
def NewQueryString (field query : String) : QueryString :=
  ⟨"", field, query, "", "", []⟩

/-- Source: `QueryDsl.Search`. -/
def QueryDsl.Search : QueryDsl → String → QueryDsl
  | .mk (.mk ma terms _ prefx bools cs fs) fv fwv, searchFor =>
    QueryDsl.mk
      (QueryEmbed.mk ma terms (some { NewQueryString "" "" with Query := searchFor }) prefx bools
        cs fs) fv fwv

/-- Source: `QueryDsl.Qs`. -/
def QueryDsl.Qs : QueryDsl → Option QueryString → QueryDsl
  | .mk (.mk ma terms _ prefx bools cs fs) fv fwv, qs =>
    QueryDsl.mk (QueryEmbed.mk ma terms qs prefx bools cs fs) fv fwv

/-- Go `strings.Split(s, ",")` on the characters still to read, `cur` being the piece
read so far, in reverse. -/
def splitCommaAux : List Char → List Char → List String
  | [], cur => [String.mk cur.reverse]
  | c :: cs, cur =>
    if c = ',' then String.mk cur.reverse :: splitCommaAux cs [] else splitCommaAux cs (c :: cur)

/-- Go `strings.Split(s, ",")`. -/
def splitComma (s : String) : List String := splitCommaAux s.data []

/-- Source: `QueryDsl.Fields`. -/
def QueryDsl.Fields : QueryDsl → String → String → String → String → QueryDsl
  | .mk (.mk ma terms _ prefx bools cs fs) fv fwv, fields, search, exists_, missing =>
    let fieldList := splitComma fields
    let qs := { NewQueryString "" "" with Query := search }
    let qs := if fieldList.length = 1 then { qs with DefaultField := fields }
      else { qs with Fields := fieldList }
    let qs := { qs with Exists := exists_, Missing := missing }
    QueryDsl.mk (QueryEmbed.mk ma terms (some qs) prefx bools cs fs) fv fwv

/-- Source: `QueryDsl.Filter`. -/
def QueryDsl.Filter : QueryDsl → Option FilterOp → QueryDsl
  | .mk q _ fwv, f => QueryDsl.mk q f fwv

/-- Source: `QueryDsl.Filters`. -/
def QueryDsl.Filters : QueryDsl → List GoValue → Option QueryDsl
  | .mk q fv fwv, fl =>
    ((fwv.getD NewFilterWrap).addFilters fl).map fun w => QueryDsl.mk q fv (some w)

/-- Source: `QueryDsl.FunctionScore`. -/
def QueryDsl.FunctionScore : QueryDsl → String → Option QueryDsl → Option (List GoValue) →
    QueryDsl
  | .mk (.mk ma terms qs prefx bools cs _) fv fwv, mode, qq, functions =>
    QueryDsl.mk
      (QueryEmbed.mk ma terms qs prefx bools cs
        [("functions", GoValue.slice functions), ("score_mode", GoValue.str mode),
          ("query", GoValue.queryDsl qq)]) fv fwv

/-- The facet `Terms` struct. -/
structure Terms where
  Fields : List String
  Size : String
  Regex : String
  RegexFlags : String
  Order : String
  All : Bool

/-- The facet `Term` struct. -/
structure Term where
  Terms : Terms
  Global : Bool
  FilterVal : Option FilterWrap

/-- Source: `NewTerm`. -/
def NewTerm (fields : List String) : Term :=
  ⟨⟨fields, "", "", "", "", false⟩, false, none⟩

/-- Source: `Term.Filter`. -/
def Term.Filter (s : Term) (fl : List GoValue) : Option Term :=
  ((s.FilterVal.getD NewFilterWrap).addFilters fl).map fun w => { s with FilterVal := some w }

/-! ## Sorting: `searchsort.go` -/

structure SortDsl where
  Name : String
  IsDesc : Bool
  Missing : String

/-- Source: `Sort` (a reserved word here, hence the longer name). -/
def SortField (field : String) : SortDsl := ⟨field, false, ""⟩

/-- Source: `SortDsl.Desc`. -/
def SortDsl.Desc (s : SortDsl) : SortDsl := { s with IsDesc := true }

/-- Source: `SortDsl.Asc`. -/
def SortDsl.Asc (s : SortDsl) : SortDsl := { s with IsDesc := false }

/-- Source: `SortDsl.MarshalJSON`. -/
def SortDsl.MarshalJSON (s : SortDsl) : Json :=
  let order : GoMap String := GoMap.set [] "order" (if s.IsDesc then "desc" else "asc")
  let order := if s.Missing = "_first" ∨ s.Missing = "_last" then
      GoMap.set order "missing" s.Missing else order
  Json.obj [(s.Name, marshalStrMap order)]

/-! ## Values used in the examples -/

/-- A runtime that accepts no text returned by a `MarshalJSON` method. The runtime is
consulted for a `GeoDistanceRange` only, which none of the examples holds. -/
def strictRuntime : GoRuntime := ⟨fun _ => "", fun _ => none⟩

/-- The chain `Range().Field("@timestamp").From(...).To(...)`. -/
def timestampRange : Option FilterOp :=
  ((Range.Field "@timestamp").bind fun f => f.From "2012-12-29T16:52:48+00:00").bind
    fun f => f.To "2012-12-29T17:52:48+00:00"

/-- The `FilterOp` that `timestampRange` builds. -/
def timestampRangeOp : FilterOp :=
  FilterOp.mk "@timestamp" [] []
    (some [("@timestamp", some [("from", GoValue.str "2012-12-29T16:52:48+00:00"),
      ("to", GoValue.str "2012-12-29T17:52:48+00:00")])])
    [] [] [] [] none none none none

/-- The node that `Query().Search("actor:\"bob\"").Range(...)` builds. -/
def bobQuery : QueryDsl :=
  QueryDsl.mk (QueryEmbed.mk none [] (some ⟨"", "", "actor:\"bob\"", "", "", []⟩) [] none none [])
    (some timestampRangeOp) none

/-- The object `query_string` holding the member `query` with the text `actor:"bob"`. -/
def bobQueryJson : Json :=
  Json.obj [("query_string", Json.obj [("query", Json.str "actor:\"bob\"")])]

/-- The text of the range filter over `@timestamp`. -/
def timestampRangeJson : Json :=
  Json.obj [("range", Json.obj [("@timestamp",
    Json.obj [("from", Json.str "2012-12-29T16:52:48+00:00"),
      ("to", Json.str "2012-12-29T17:52:48+00:00")])])]

/-- The filter `Filter().Exists("repository.name")`. -/
def existsRepo : FilterOp := Filter.Exists "repository.name"

/-- The filter `Filter().Term("user", "kimchy")`. -/
def termUser : FilterOp := Filter.Term "user" "kimchy"

/-- The embedded query shape of `Query().Search("actor:\"bob\"")`. -/
def bobEmbed : QueryEmbed :=
  QueryEmbed.mk none [] (some ⟨"", "", "actor:\"bob\"", "", "", []⟩) [] none none []

/-- A group of two filters under `or`. -/
def orGroup : FilterWrap :=
  FilterWrap.mk "or" [GoValue.filterOp (some termUser), GoValue.filterOp (some existsRepo)]

/-- A group holding a value that `json.Marshal` refuses. -/
def brokenGroup : FilterWrap :=
  FilterWrap.mk "and" [GoValue.other none, GoValue.filterOp (some existsRepo)]

/-! ## Notions used to state the properties of `FilterOp` -/

/-- The six bound-setters of `FilterOp`, each with the key it writes and the value it
stores; `s` is the argument of `From` and `To`, `v` the argument of the other four. -/
def boundSetters (s : String) (v : GoValue) :
    List ((FilterOp → Option FilterOp) × String × GoValue) :=
  [(fun f => f.From s, "from", GoValue.str s),
    (fun f => f.To s, "to", GoValue.str s),
    (fun f => f.Gt v, "gt", v),
    (fun f => f.Gte v, "gte", v),
    (fun f => f.Lt v, "lt", v),
    (fun f => f.Lte v, "lte", v)]

/-- The map read `f.Range[fld]` with its comma-ok flag: `none` when the field has no entry
(or the range map is nil), `some none` for an entry holding a nil map. -/
def FilterOp.rangeEntry (f : FilterOp) (fld : String) : Option (Option (List (String × GoValue))) :=
  GoMap.get? (f.Range.getD []) fld

/-- The map read `f.Range[fld][key]` with its comma-ok flag. -/
def FilterOp.boundAt (f : FilterOp) (fld key : String) : Option GoValue :=
  match f.rangeEntry fld with
  | some (some b) => GoMap.get? b key
  | _ => none

/-- The names of the populated groups of a `FilterOp`, in the order of the struct
declaration: a map group is populated when its length is not 0, a pointer group when it
is not nil. -/
def populatedGroups (f : FilterOp) : List String :=
  (if f.TermMap.length > 0 then ["term"] else [])
  ++ (if f.TermsMap.length > 0 then ["terms"] else [])
  ++ (if rangeLen f.Range > 0 then ["range"] else [])
  ++ (if f.Exist.length > 0 then ["exists"] else [])
  ++ (if f.PrefixVal.length > 0 then ["prefix"] else [])
  ++ (if f.MisssingVal.length > 0 then ["missing"] else [])
  ++ (if f.RegexpMap.length > 0 then ["regexp"] else [])
  ++ (if f.GeoDistRange.isSome then ["geo_distance_range"] else [])
  ++ (if f.Bools.isSome then ["bool"] else [])
  ++ (if f.NestedD.isSome then ["nested"] else [])
  ++ (if f.QueryD.isSome then ["query"] else [])

/-- The member names of a JSON object, in order (none for a value that is no object). -/
def Json.keys : Json → List String
  | Json.obj kvs => kvs.map Prod.fst
  | _ => []

/-- A `FilterOp` whose history holds no call of `Field` at all: it was created by
`Filter()` or `Range()`, only the other builder methods have run on it, and every filter
that `Add` merged in is of this kind too. Its range map has no entry. -/
inductive NoFieldCall : FilterOp → Prop
  | ofFilter : NoFieldCall Filter
  | ofRange : NoFieldCall Range
  | term (f : FilterOp) (n v : String) : NoFieldCall f → NoFieldCall (f.Term n v)
  | terms (f : FilterOp) (n : String) (vs : List GoValue) :
      NoFieldCall f → NoFieldCall (f.Terms n vs)
  | existsTest (f : FilterOp) (n : String) : NoFieldCall f → NoFieldCall (f.Exists n)
  | regexp (f : FilterOp) (n r : String) : NoFieldCall f → NoFieldCall (f.Regexp n r)
  | missing (f : FilterOp) (n : String) : NoFieldCall f → NoFieldCall (f.Missing n)
  | prefixVal (f : FilterOp) (n v : String) : NoFieldCall f → NoFieldCall (f.Prefix n v)
  | geo (f : FilterOp) (a b c d : String) (lat lon : Nat) :
      NoFieldCall f → NoFieldCall (f.GeoDistanceRange a b c d lat lon)
  | bool (f : FilterOp) (must should : List (Option FilterOp)) :
      NoFieldCall f → NoFieldCall (f.Bool must should)
  | query (f : FilterOp) (q : Option QueryDsl) : NoFieldCall f → NoFieldCall (f.Query q)
  | nested (f : FilterOp) (path : String) (inner : Option FilterOp) (frm size : Int) :
      NoFieldCall f → NoFieldCall (f.Nested path inner frm size)
  | add (f g : FilterOp) : NoFieldCall f → NoFieldCall g → NoFieldCall (f.Add g)

/-- A `FilterOp` created by `Range()`: any builder method may have run on it, `Field` and
the bound-setters included (when they returned), and what `Add` merged in was created by
`Range()` too or is a `FilterOp` without `Field` call. -/
inductive FromRange : FilterOp → Prop
  | ofRange : FromRange Range
  | term (f : FilterOp) (n v : String) : FromRange f → FromRange (f.Term n v)
  | terms (f : FilterOp) (n : String) (vs : List GoValue) :
      FromRange f → FromRange (f.Terms n vs)
  | existsTest (f : FilterOp) (n : String) : FromRange f → FromRange (f.Exists n)
  | regexp (f : FilterOp) (n r : String) : FromRange f → FromRange (f.Regexp n r)
  | missing (f : FilterOp) (n : String) : FromRange f → FromRange (f.Missing n)
  | prefixVal (f : FilterOp) (n v : String) : FromRange f → FromRange (f.Prefix n v)
  | geo (f : FilterOp) (a b c d : String) (lat lon : Nat) :
      FromRange f → FromRange (f.GeoDistanceRange a b c d lat lon)
  | bool (f : FilterOp) (must should : List (Option FilterOp)) :
      FromRange f → FromRange (f.Bool must should)
  | query (f : FilterOp) (q : Option QueryDsl) : FromRange f → FromRange (f.Query q)
  | nested (f : FilterOp) (path : String) (inner : Option FilterOp) (frm size : Int) :
      FromRange f → FromRange (f.Nested path inner frm size)
  | add (f g : FilterOp) : FromRange f → FromRange g → FromRange (f.Add g)
  | addPlain (f g : FilterOp) : FromRange f → NoFieldCall g → FromRange (f.Add g)
  | field (f : FilterOp) (fld : String) (f' : FilterOp) :
      FromRange f → f.Field fld = some f' → FromRange f'
  | bound (f : FilterOp) (s : String) (v : GoValue)
      (p : (FilterOp → Option FilterOp) × String × GoValue) (f' : FilterOp) :
      FromRange f → p ∈ boundSetters s v → p.1 f = some f' → FromRange f'

/-- A `FilterOp` created by `Filter()` or `Range()` on which `Field` has not been called:
only the other builder methods have run on it. The filter merged in by `Add` is any
`FilterOp`, one on which `Field` was called included. -/
inductive FieldNotCalled : FilterOp → Prop
  | ofFilter : FieldNotCalled Filter
  | ofRange : FieldNotCalled Range
  | term (f : FilterOp) (n v : String) : FieldNotCalled f → FieldNotCalled (f.Term n v)
  | terms (f : FilterOp) (n : String) (vs : List GoValue) :
      FieldNotCalled f → FieldNotCalled (f.Terms n vs)
  | existsTest (f : FilterOp) (n : String) : FieldNotCalled f → FieldNotCalled (f.Exists n)
  | regexp (f : FilterOp) (n r : String) : FieldNotCalled f → FieldNotCalled (f.Regexp n r)
  | missing (f : FilterOp) (n : String) : FieldNotCalled f → FieldNotCalled (f.Missing n)
  | prefixVal (f : FilterOp) (n v : String) : FieldNotCalled f → FieldNotCalled (f.Prefix n v)
  | geo (f : FilterOp) (a b c d : String) (lat lon : Nat) :
      FieldNotCalled f → FieldNotCalled (f.GeoDistanceRange a b c d lat lon)
  | bool (f : FilterOp) (must should : List (Option FilterOp)) :
      FieldNotCalled f → FieldNotCalled (f.Bool must should)
  | query (f : FilterOp) (q : Option QueryDsl) : FieldNotCalled f → FieldNotCalled (f.Query q)
  | nested (f : FilterOp) (path : String) (inner : Option FilterOp) (frm size : Int) :
      FieldNotCalled f → FieldNotCalled (f.Nested path inner frm size)
  | add (f g : FilterOp) : FieldNotCalled f → FieldNotCalled (f.Add g)

/-- The filter `Range().Field("")`. -/
def emptyFieldRange : FilterOp :=
  FilterOp.mk "" [] [] (some [("", some [])]) [] [] [] [] none none none none

/-- The filter `Filter().Term("user", "kimchy").Exists("repository.name")`. -/
def termAndExists : FilterOp := termUser.Exists "repository.name"

/-- The filter `Range().Field("age")`. -/
def ageRange : FilterOp :=
  FilterOp.mk "age" [] [] (some [("age", some [])]) [] [] [] [] none none none none

/-! ## Unfolding lemmas for the marshallers -/

theorem queryDsl_marshal_mk (rt : GoRuntime) (q : QueryEmbed) (filterVal : Option FilterOp)
    (filterWrapVal : Option FilterWrap) :
    QueryDsl.MarshalJSON rt (QueryDsl.mk q filterVal filterWrapVal) =
      if (filterWrapVal.isSome || filterVal.isSome) && hasQuery q then
        match marshalQueryEmbed rt q with
        | none => none
        | some queryB =>
          match filterVal, filterWrapVal with
          | some f, _ => (marshalFilterOp rt f).map fun filterB => filtered queryB filterB
          | none, some w =>
            (FilterWrap.MarshalJSON rt w).map fun filterB => filtered queryB filterB
          | none, none => none
      else marshalQueryEmbed rt q := by
  cases filterVal <;> cases filterWrapVal <;> rfl

theorem marshalValues_nil (rt : GoRuntime) : marshalValues rt [] = some [] := rfl

theorem marshalValues_cons (rt : GoRuntime) (v : GoValue) (vs : List GoValue) :
    marshalValues rt (v :: vs) =
      match marshalValue rt v, marshalValues rt vs with
      | some j, some js => some (j :: js)
      | _, _ => none := rfl

/-- The elements of a slice marshal to `js` exactly when each element marshals to the
element of `js` at its position. -/
theorem marshalValues_eq_some (rt : GoRuntime) (xs : List GoValue) :
    ∀ js : List Json, marshalValues rt xs = some js ↔ xs.map (marshalValue rt) = js.map some := by
  induction xs with
  | nil =>
    intro js
    cases js <;> simp [marshalValues_nil]
  | cons x xs ih =>
    intro js
    rw [marshalValues_cons]
    cases js with
    | nil => cases marshalValue rt x <;> cases marshalValues rt xs <;> simp
    | cons j' js' =>
      have h := ih js'
      simp only [List.map_cons, List.cons.injEq]
      rw [← h]
      cases marshalValue rt x <;> cases marshalValues rt xs <;> simp

theorem filterWrap_marshal_mk (rt : GoRuntime) (boolClause : String) (filters : List GoValue) :
    FilterWrap.MarshalJSON rt (FilterWrap.mk boolClause filters) =
      if filters.length > 1 then
        (marshalValues rt filters).map fun js => Json.obj [(boolClause, Json.arr js)]
      else
        match filters with
        | x :: _ => marshalValue rt x
        | [] => some Json.null := by
  cases filters <;> rfl

theorem marshalQueryEmbed_mk (rt : GoRuntime) (matchAll : Option MatchAll)
    (terms : GoMap String) (qs : Option QueryString) (prefx : GoMap String)
    (bools : Option BoolDsl) (constantScores : Option ConstantScoreDsl)
    (functionScore : List (String × GoValue)) :
    marshalQueryEmbed rt (QueryEmbed.mk matchAll terms qs prefx bools constantScores functionScore) =
      match (match bools with
            | none => some []
            | some b => (marshalBoolDsl rt b).map fun j => [("bool", j)]),
          (match constantScores with
            | none => some []
            | some c => (marshalConstantScoreDsl rt c).map fun j => [("constant_score", j)]),
          marshalMembers rt functionScore with
      | some b, some c, some fs =>
        some (Json.obj (
          omitEmpty matchAll.isSome "match_all" (Json.obj [])
          ++ omitEmpty (!terms.isEmpty) "term" (marshalStrMap terms)
          ++ (match qs with
              | none => []
              | some s => [("query_string", marshalQueryString s)])
          ++ omitEmpty (!prefx.isEmpty) "prefix" (marshalStrMap prefx)
          ++ b ++ c
          ++ omitEmpty (!functionScore.isEmpty) "function_score" (Json.obj (sortKeys fs))))
      | _, _, _ => none := by
  cases bools <;> cases constantScores <;> rfl

/-- The member names `json.Marshal` can write for a `QueryEmbed`. -/
theorem marshalQueryEmbed_keys (rt : GoRuntime) (e : QueryEmbed) (j : Json)
    (h : marshalQueryEmbed rt e = some j) :
    ∃ kvs, j = Json.obj kvs ∧ ∀ kv ∈ kvs, kv.1 ∈
      ["match_all", "term", "query_string", "prefix", "bool", "constant_score",
        "function_score"] := by
  cases e with
  | mk matchAll terms qs prefx bools constantScores functionScore =>
    rw [marshalQueryEmbed_mk] at h
    have hb : ∀ (o : Option BoolDsl) (l : List (String × Json)),
        (match o with
          | none => some []
          | some b => (marshalBoolDsl rt b).map fun j => [("bool", j)]) = some l →
        ∀ kv ∈ l, kv.1 = "bool" := by
      intro o l hl kv hkv
      cases o with
      | none => simp at hl; subst hl; simp at hkv
      | some b =>
        cases hm : marshalBoolDsl rt b with
        | none => simp [hm] at hl
        | some jb => simp [hm] at hl; subst hl; simp at hkv; simp [hkv]
    have hc : ∀ (o : Option ConstantScoreDsl) (l : List (String × Json)),
        (match o with
          | none => some []
          | some c => (marshalConstantScoreDsl rt c).map fun j => [("constant_score", j)])
          = some l →
        ∀ kv ∈ l, kv.1 = "constant_score" := by
      intro o l hl kv hkv
      cases o with
      | none => simp at hl; subst hl; simp at hkv
      | some c =>
        cases hm : marshalConstantScoreDsl rt c with
        | none => simp [hm] at hl
        | some jc => simp [hm] at hl; subst hl; simp at hkv; simp [hkv]
    split at h
    · rename_i b c fs hb' hc' _
      have hb'' := hb _ _ hb'
      have hc'' := hc _ _ hc'
      simp only [Option.some.injEq] at h
      subst h
      refine ⟨_, rfl, ?_⟩
      intro kv hkv
      simp only [List.mem_append, omitEmpty] at hkv
      rcases hkv with (((((hk | hk) | hk) | hk) | hk) | hk) | hk
      · split at hk <;> simp at hk; simp [hk]
      · split at hk <;> simp at hk; simp [hk]
      · cases qs <;> simp at hk; simp [hk]
      · split at hk <;> simp at hk; simp [hk]
      · simp [hb'' kv hk]
      · simp [hc'' kv hk]
      · split at hk <;> simp at hk; simp [hk]
    · simp at h

/-! ## The filtered query: `QueryDsl.MarshalJSON` -/

/-- C1. A node with a filter attached and `hasQuery` true marshals to the object
`filtered` holding `query`, the encoding `Q` of the embedded query shape alone, and
`filter`, the encoding `F` of the attached filter (`FilterVal` when set, else
`FilterWrapVal`). -/
theorem marshalJSON_filtered (rt : GoRuntime) (q : QueryDsl) (Q F : Json)
    (hq : hasQuery q.QueryEmbed = true)
    (hQ : marshalQueryEmbed rt q.QueryEmbed = some Q)
    (hF : (∃ f, q.FilterVal = some f ∧ marshalFilterOp rt f = some F) ∨
      (∃ w, q.FilterVal = none ∧ q.FilterWrapVal = some w ∧
        FilterWrap.MarshalJSON rt w = some F)) :
    QueryDsl.MarshalJSON rt q =
      some (Json.obj [("filtered", Json.obj [("query", Q), ("filter", F)])]) := by
  cases q with
  | mk e fv fwv =>
    simp only [QueryDsl.QueryEmbed, QueryDsl.FilterVal, QueryDsl.FilterWrapVal] at hq hQ hF
    rw [queryDsl_marshal_mk]
    rcases hF with ⟨f, rfl, hf⟩ | ⟨w, rfl, rfl, hw⟩
    · simp [hq, hQ, hf, filtered]
    · simp [hq, hQ, hw, filtered]

/-- The example of C1: `Query().Search("actor:\"bob\"")` with the `@timestamp` range
attached marshals to the filtered object of the query string and the range. -/
theorem marshalJSON_filtered_witness :
    timestampRange = some timestampRangeOp ∧
    (Query.Search "actor:\"bob\"").Range timestampRange = some bobQuery ∧
    hasQuery bobQuery.QueryEmbed = true ∧
    marshalQueryEmbed strictRuntime bobQuery.QueryEmbed = some bobQueryJson ∧
    marshalFilterOp strictRuntime timestampRangeOp = some timestampRangeJson ∧
    QueryDsl.MarshalJSON strictRuntime bobQuery =
      some (Json.obj [("filtered",
        Json.obj [("query", bobQueryJson), ("filter", timestampRangeJson)])]) :=
  ⟨rfl, rfl, rfl, rfl, rfl,
    marshalJSON_filtered strictRuntime bobQuery bobQueryJson timestampRangeJson rfl rfl
      (Or.inl ⟨timestampRangeOp, rfl, rfl⟩)⟩

/-- C2. When `hasQuery` is false an attached filter never reaches the output: the node
marshals as the same node with `FilterVal` and `FilterWrapVal` removed, that is, as its
embedded query shape alone; and `Query().Filter(f)` marshals to the empty object. -/
theorem marshalJSON_drops_filter (rt : GoRuntime) (q : QueryDsl)
    (hq : hasQuery q.QueryEmbed = false) :
    QueryDsl.MarshalJSON rt q = QueryDsl.MarshalJSON rt (QueryDsl.mk q.QueryEmbed none none) ∧
    QueryDsl.MarshalJSON rt q = marshalQueryEmbed rt q.QueryEmbed ∧
    ∀ f : Option FilterOp, QueryDsl.MarshalJSON rt (Query.Filter f) = some (Json.obj []) := by
  refine ⟨?_, ?_, ?_⟩
  · cases q with
    | mk e fv fwv =>
      simp only [QueryDsl.QueryEmbed] at hq ⊢
      rw [queryDsl_marshal_mk, queryDsl_marshal_mk]
      simp [hq]
  · cases q with
    | mk e fv fwv =>
      simp only [QueryDsl.QueryEmbed] at hq ⊢
      rw [queryDsl_marshal_mk]
      simp [hq]
  · intro f
    have h : Query.Filter f = QueryDsl.mk (QueryEmbed.mk none [] none [] none none []) f none :=
      rfl
    rw [h, queryDsl_marshal_mk]
    have h0 : hasQuery (QueryEmbed.mk none [] none [] none none []) = false := rfl
    rw [h0]
    simp only [Bool.and_false, Bool.false_eq_true, if_false]
    rfl

/-- The example of C2: `Query().Filter(Filter().Exists("repository.name"))` marshals to
the empty object, although the filter alone marshals to an `exists` object. -/
theorem marshalJSON_drops_filter_witness :
    hasQuery (Query.Filter (some existsRepo)).QueryEmbed = false ∧
    marshalFilterOp strictRuntime existsRepo =
      some (Json.obj [("exists", Json.obj [("field", Json.str "repository.name")])]) ∧
    QueryDsl.MarshalJSON strictRuntime (Query.Filter (some existsRepo)) = some (Json.obj []) :=
  ⟨rfl, rfl,
    ((marshalJSON_drops_filter strictRuntime (Query.Filter (some existsRepo)) rfl).2.1).trans rfl⟩

/-- C3. With no filter attached the node marshals as its bare query shape, an object that
has no `filtered` member; and `Query().Term(f, v)` marshals to the object `term` holding
the single member `f` with value `v`. -/
theorem marshalJSON_bare (rt : GoRuntime) (q : QueryDsl)
    (hv : q.FilterVal = none) (hw : q.FilterWrapVal = none) :
    QueryDsl.MarshalJSON rt q = marshalQueryEmbed rt q.QueryEmbed ∧
    (∀ j, QueryDsl.MarshalJSON rt q = some j →
      ∃ kvs, j = Json.obj kvs ∧ ∀ kv ∈ kvs, kv.1 ≠ "filtered") ∧
    ∀ f v : String, QueryDsl.MarshalJSON rt (Query.Term f v) =
      some (Json.obj [("term", Json.obj [(f, Json.str v)])]) := by
  have h1 : QueryDsl.MarshalJSON rt q = marshalQueryEmbed rt q.QueryEmbed := by
    cases q with
    | mk e fv fwv =>
      simp only [QueryDsl.QueryEmbed, QueryDsl.FilterVal, QueryDsl.FilterWrapVal] at hv hw ⊢
      subst hv hw
      rw [queryDsl_marshal_mk]
      simp
  refine ⟨h1, ?_, ?_⟩
  · intro j hj
    rw [h1] at hj
    obtain ⟨kvs, rfl, hk⟩ := marshalQueryEmbed_keys rt _ j hj
    refine ⟨kvs, rfl, ?_⟩
    intro kv hkv heq
    have := hk kv hkv
    rw [heq] at this
    revert this
    decide
  · intro f v
    have h : Query.Term f v =
        QueryDsl.mk (QueryEmbed.mk none [(f, v)] none [] none none []) none none := rfl
    rw [h, queryDsl_marshal_mk]
    simp only [Option.isSome_none, Bool.or_self, Bool.false_and, Bool.false_eq_true, if_false]
    rfl

/-- The example of C3: `Query().Term("user", "kimchy")`. -/
theorem marshalJSON_bare_witness :
    (Query.Term "user" "kimchy").FilterVal = none ∧
    (Query.Term "user" "kimchy").FilterWrapVal = none ∧
    QueryDsl.MarshalJSON strictRuntime (Query.Term "user" "kimchy") =
      some (Json.obj [("term", Json.obj [("user", Json.str "kimchy")])]) :=
  ⟨rfl, rfl,
    ((marshalJSON_bare strictRuntime (Query.Term "user" "kimchy") rfl rfl).1).trans rfl⟩

/-- C4. With `hasQuery` true and both `FilterVal` and `FilterWrapVal` set, the `filter`
member is the encoding of `FilterVal` and the output does not depend on `FilterWrapVal`
(not even on whether it could be marshalled); `FilterWrapVal` is marshalled when
`FilterVal` is nil. -/
theorem marshalJSON_filterVal_wins (rt : GoRuntime) (e : QueryEmbed) (f : FilterOp)
    (w w' : FilterWrap) (hq : hasQuery e = true) :
    QueryDsl.MarshalJSON rt (QueryDsl.mk e (some f) (some w)) =
      QueryDsl.MarshalJSON rt (QueryDsl.mk e (some f) (some w')) ∧
    QueryDsl.MarshalJSON rt (QueryDsl.mk e (some f) (some w)) =
      QueryDsl.MarshalJSON rt (QueryDsl.mk e (some f) none) ∧
    (∀ Q F, marshalQueryEmbed rt e = some Q → marshalFilterOp rt f = some F →
      QueryDsl.MarshalJSON rt (QueryDsl.mk e (some f) (some w)) =
        some (Json.obj [("filtered", Json.obj [("query", Q), ("filter", F)])])) ∧
    (∀ Q G, marshalQueryEmbed rt e = some Q → FilterWrap.MarshalJSON rt w = some G →
      QueryDsl.MarshalJSON rt (QueryDsl.mk e none (some w)) =
        some (Json.obj [("filtered", Json.obj [("query", Q), ("filter", G)])])) := by
  refine ⟨?_, ?_, ?_, ?_⟩
  · rw [queryDsl_marshal_mk, queryDsl_marshal_mk]
    simp [hq]
  · rw [queryDsl_marshal_mk, queryDsl_marshal_mk]
    simp [hq]
  · intro Q F hQ hF
    rw [queryDsl_marshal_mk]
    simp [hq, hQ, hF, filtered]
  · intro Q G hQ hG
    rw [queryDsl_marshal_mk]
    simp [hq, hQ, hG, filtered]

/-- The example of C4: with the range filter as `FilterVal`, a group that cannot be
marshalled and a group that can give the same output, the filtered object of the range. -/
theorem marshalJSON_filterVal_wins_witness :
    hasQuery bobEmbed = true ∧
    FilterWrap.MarshalJSON strictRuntime brokenGroup = none ∧
    QueryDsl.MarshalJSON strictRuntime
        (QueryDsl.mk bobEmbed (some timestampRangeOp) (some brokenGroup)) =
      QueryDsl.MarshalJSON strictRuntime
        (QueryDsl.mk bobEmbed (some timestampRangeOp) (some orGroup)) ∧
    QueryDsl.MarshalJSON strictRuntime
        (QueryDsl.mk bobEmbed (some timestampRangeOp) (some brokenGroup)) =
      some (Json.obj [("filtered",
        Json.obj [("query", bobQueryJson), ("filter", timestampRangeJson)])]) :=
  ⟨rfl, rfl,
    (marshalJSON_filterVal_wins strictRuntime bobEmbed timestampRangeOp brokenGroup orGroup
      rfl).1,
    (marshalJSON_filterVal_wins strictRuntime bobEmbed timestampRangeOp brokenGroup orGroup
      rfl).2.2.1 bobQueryJson timestampRangeJson rfl rfl⟩

/-! ## The filter group: `FilterWrap` -/

/-- C5. A group with exactly one clause marshals as that clause alone, whatever the
operator, and a group with no clause marshals to JSON `null`. -/
theorem filterWrap_marshal_degenerate (rt : GoRuntime) (op : String) (x : GoValue) :
    FilterWrap.MarshalJSON rt (FilterWrap.mk op [x]) = marshalValue rt x ∧
    FilterWrap.MarshalJSON rt (FilterWrap.mk op []) = some Json.null := by
  constructor
  · rw [filterWrap_marshal_mk]
    simp
  · rw [filterWrap_marshal_mk]
    simp

/-- C6. A group with operator `op` and `n ≥ 2` clauses, the clause at position `i`
marshalling to `js[i]`, marshals to the object whose single member `op` is the array `js`:
as many elements as clauses, in the order of the clause list. -/
theorem filterWrap_marshal_many (rt : GoRuntime) (op : String) (items : List GoValue)
    (js : List Json) (hn : 2 ≤ items.length)
    (hs : items.map (marshalValue rt) = js.map some) :
    FilterWrap.MarshalJSON rt (FilterWrap.mk op items) = some (Json.obj [(op, Json.arr js)]) ∧
    js.length = items.length ∧
    ∀ i : Nat, i < items.length → (items[i]?).bind (marshalValue rt) = js[i]? := by
  refine ⟨?_, ?_, ?_⟩
  · rw [filterWrap_marshal_mk, if_pos (by omega), (marshalValues_eq_some rt items js).mpr hs]
    rfl
  · have h := congrArg List.length hs
    simpa using h.symm
  · intro i _
    have h := congrArg (fun l => l[i]?) hs
    simp only [List.getElem?_map] at h
    cases hi : items[i]? with
    | none => rw [hi] at h; cases hj : js[i]? with
      | none => rfl
      | some j => rw [hj] at h; simp at h
    | some x =>
      rw [hi] at h
      cases hj : js[i]? with
      | none => rw [hj] at h; simp at h
      | some j => rw [hj] at h; simpa using h

/-- The example of C6: a term filter and an exists filter under `or`. -/
theorem filterWrap_marshal_many_witness :
    2 ≤ orGroup.filters.length ∧
    FilterWrap.MarshalJSON strictRuntime orGroup =
      some (Json.obj [("or", Json.arr [
        Json.obj [("term", Json.obj [("user", Json.str "kimchy")])],
        Json.obj [("exists", Json.obj [("field", Json.str "repository.name")])]])]) :=
  ⟨by decide,
    (filterWrap_marshal_many strictRuntime "or"
      [GoValue.filterOp (some termUser), GoValue.filterOp (some existsRepo)]
      [Json.obj [("term", Json.obj [("user", Json.str "kimchy")])],
        Json.obj [("exists", Json.obj [("field", Json.str "repository.name")])]]
      (by decide) rfl).1⟩

theorem addFilters_mk (boolClause : String) (filters fl : List GoValue) :
    (FilterWrap.mk boolClause filters).addFilters fl =
      if fl.length > 1 then
        match fl with
        | GoValue.boolClause _ :: _ => none
        | GoValue.str s :: rest => some (FilterWrap.mk s (filters ++ rest))
        | _ => some (FilterWrap.mk boolClause (filters ++ fl))
      else some (FilterWrap.mk boolClause (filters ++ fl)) := rfl

/-- A `string` in front of further items is taken as the operator. -/
theorem addFilters_str (bc : String) (L : List GoValue) (s : String) (x : GoValue)
    (rest : List GoValue) :
    (FilterWrap.mk bc L).addFilters (GoValue.str s :: x :: rest) =
      some (FilterWrap.mk s (L ++ x :: rest)) := by
  rw [addFilters_mk, if_pos (by simp)]

/-- A `BoolClause` in front of further items: the assertion `fc.(string)` panics. -/
theorem addFilters_boolClause (bc : String) (L : List GoValue) (s : String) (x : GoValue)
    (rest : List GoValue) :
    (FilterWrap.mk bc L).addFilters (GoValue.boolClause s :: x :: rest) = none := by
  rw [addFilters_mk, if_pos (by simp)]

/-- Without a marker in front every item is appended and the operator stays. -/
theorem addFilters_plain (bc : String) (L fl : List GoValue)
    (h : fl.length ≤ 1 ∨
      ((∀ s, fl.head? ≠ some (GoValue.str s)) ∧ ∀ s, fl.head? ≠ some (GoValue.boolClause s))) :
    (FilterWrap.mk bc L).addFilters fl = some (FilterWrap.mk bc (L ++ fl)) := by
  rw [addFilters_mk]
  rcases h with h | ⟨h1, h2⟩
  · rw [if_neg (by omega)]
  · cases fl with
    | nil => rfl
    | cons a t =>
      cases a <;>
        first
          | exact absurd rfl (h1 _)
          | exact absurd rfl (h2 _)
          | (split <;> rfl)

/-- C7. A first item of type `string`, followed by at least one more item, becomes the
operator of the group and the remaining items become the clause list. A first item of type
`BoolClause` in the same position makes `CompoundFilter` panic: the type switch of
`addFilters` admits it and the assertion `fc.(string)` then fails. -/
theorem compoundFilter_marker (s : String) (x : GoValue) (rest : List GoValue) :
    CompoundFilter (GoValue.str s :: x :: rest) = some (FilterWrap.mk s (x :: rest)) ∧
    CompoundFilter (GoValue.boolClause s :: x :: rest) = none ∧
    CompoundFilter [GoValue.boolClause "or", GoValue.filterOp (some termUser),
      GoValue.filterOp (some existsRepo)] = none :=
  ⟨addFilters_str "and" [] s x rest, addFilters_boolClause "and" [] s x rest, rfl⟩

/-- C8 as stated fails: a first item that is a string other than `and` and `or`, followed
by another item, is taken as the operator and is not kept as a clause. -/
theorem compoundFilter_default_counterexample :
    GoValue.str "user" ≠ GoValue.str "and" ∧ GoValue.str "user" ≠ GoValue.str "or" ∧
    CompoundFilter [GoValue.str "user", GoValue.filterOp (some existsRepo)] =
      some (FilterWrap.mk "user" [GoValue.filterOp (some existsRepo)]) ∧
    CompoundFilter [GoValue.str "user", GoValue.filterOp (some existsRepo)] ≠
      some (FilterWrap.mk "and" [GoValue.str "user", GoValue.filterOp (some existsRepo)]) := by
  refine ⟨?_, ?_, rfl, ?_⟩
  · simp
  · simp
  · intro h
    have h2 := congrArg (Option.map FilterWrap.boolClause) h
    revert h2
    decide

/-- C8, amended. For an item list with at most one item, or whose first item is neither a
`string` nor a `BoolClause`, `CompoundFilter` returns the group with the default operator
`and` and every supplied item, the first included, as a clause. -/
theorem compoundFilter_default (fl : List GoValue)
    (h : fl.length ≤ 1 ∨
      ((∀ s, fl.head? ≠ some (GoValue.str s)) ∧ ∀ s, fl.head? ≠ some (GoValue.boolClause s))) :
    CompoundFilter fl = some (FilterWrap.mk "and" fl) :=
  addFilters_plain "and" [] fl h

/-- The example of amended C8: two filters, no marker. -/
theorem compoundFilter_default_witness :
    ((∀ s, [GoValue.filterOp (some termUser), GoValue.filterOp (some existsRepo)].head? ≠
        some (GoValue.str s)) ∧
      ∀ s, [GoValue.filterOp (some termUser), GoValue.filterOp (some existsRepo)].head? ≠
        some (GoValue.boolClause s)) ∧
    CompoundFilter [GoValue.filterOp (some termUser), GoValue.filterOp (some existsRepo)] =
      some (FilterWrap.mk "and"
        [GoValue.filterOp (some termUser), GoValue.filterOp (some existsRepo)]) :=
  ⟨⟨fun s h => by simp at h, fun s h => by simp at h⟩,
    compoundFilter_default
      [GoValue.filterOp (some termUser), GoValue.filterOp (some existsRepo)]
      (Or.inr ⟨fun s h => by simp at h, fun s h => by simp at h⟩)⟩

/-- C9. On a group with clause list `L`: a list that starts with a `string` followed by
more items sets the operator and appends the remaining items to `L`; a list with at most
one item, or whose first item is neither a `string` nor a `BoolClause`, is appended whole;
in both cases `L` stays in front, in its order. A list that starts with a `BoolClause`
followed by more items makes `addFilters` panic, so nothing is appended. -/
theorem addFilters_append (w : FilterWrap) (fl : List GoValue) :
    (∀ s x rest, fl = GoValue.str s :: x :: rest →
      w.addFilters fl = some (FilterWrap.mk s (w.filters ++ x :: rest))) ∧
    ((fl.length ≤ 1 ∨
        ((∀ s, fl.head? ≠ some (GoValue.str s)) ∧
          ∀ s, fl.head? ≠ some (GoValue.boolClause s))) →
      w.addFilters fl = some (FilterWrap.mk w.boolClause (w.filters ++ fl))) ∧
    (∀ s x rest, fl = GoValue.boolClause s :: x :: rest → w.addFilters fl = none) ∧
    (FilterWrap.mk "and" [GoValue.filterOp (some termUser)]).addFilters
      [GoValue.boolClause "or", GoValue.filterOp (some existsRepo)] = none := by
  cases w with
  | mk bc L =>
    refine ⟨?_, ?_, ?_, rfl⟩
    · rintro s x rest rfl
      exact addFilters_str bc L s x rest
    · intro h
      exact addFilters_plain bc L fl h
    · rintro s x rest rfl
      exact addFilters_boolClause bc L s x rest

/-- The example of C9: a group holding one filter, then `"or"` with two more filters; the
first filter stays in front and the two are appended in their order. -/
theorem addFilters_append_witness :
    NewFilterWrap.addFilters [GoValue.filterOp (some termUser)] =
      some (FilterWrap.mk "and" [GoValue.filterOp (some termUser)]) ∧
    (FilterWrap.mk "and" [GoValue.filterOp (some termUser)]).addFilters
        [GoValue.str "or", GoValue.filterOp (some existsRepo),
          GoValue.filterOp (some timestampRangeOp)] =
      some (FilterWrap.mk "or" [GoValue.filterOp (some termUser),
        GoValue.filterOp (some existsRepo), GoValue.filterOp (some timestampRangeOp)]) :=
  ⟨rfl,
    (addFilters_append (FilterWrap.mk "and" [GoValue.filterOp (some termUser)])
      [GoValue.str "or", GoValue.filterOp (some existsRepo),
        GoValue.filterOp (some timestampRangeOp)]).1 "or" _ _ rfl⟩

/-! ## `FilterOp.Terms` -/

theorem goMap_get_set_self {α : Type} (m : GoMap α) (k : String) (v : α) :
    GoMap.get? (GoMap.set m k v) k = some v := by
  induction m with
  | nil => simp [GoMap.set, GoMap.get?]
  | cons kw m ih =>
    obtain ⟨k', w⟩ := kw
    by_cases h : k' = k
    · simp [GoMap.set, GoMap.get?, h]
    · simp [GoMap.set, GoMap.get?, h, ih]

theorem goMap_get_set_other {α : Type} (m : GoMap α) (k : String) (v : α) (k' : String)
    (h : k' ≠ k) : GoMap.get? (GoMap.set m k v) k' = GoMap.get? m k' := by
  induction m with
  | nil => simp [GoMap.set, GoMap.get?, Ne.symm h]
  | cons kw m ih =>
    obtain ⟨k0, w⟩ := kw
    by_cases h0 : k0 = k
    · subst h0
      simp [GoMap.set, GoMap.get?, Ne.symm h]
    · by_cases h1 : k0 = k'
      · subst h1
        simp [GoMap.set, GoMap.get?, h0]
      · simp [GoMap.set, GoMap.get?, h0, h1, ih]

theorem termsLoop_nil (field : String) (m : List (String × Option (List GoValue))) :
    termsLoop field m [] = m := by
  cases m <;> rfl

theorem termsLoop_cons (field : String) (m : List (String × Option (List GoValue)))
    (val : GoValue) (values : List GoValue) :
    termsLoop field m (val :: values) =
      termsLoop field (GoMap.set m field (appendValue (termsAt m field) val)) values := by
  cases m <;> rfl

/-- Once the field holds the list `l`, the loop leaves it holding `l` followed by the
values. -/
theorem termsLoop_get_some (field : String) (vs : List GoValue) :
    ∀ (m : List (String × Option (List GoValue))) (l : List GoValue),
      GoMap.get? m field = some (some l) →
      GoMap.get? (termsLoop field m vs) field = some (some (l ++ vs)) := by
  induction vs with
  | nil =>
    intro m l h
    rw [termsLoop_nil, List.append_nil]
    exact h
  | cons v vs ih =>
    intro m l h
    rw [termsLoop_cons]
    have h1 : termsAt m field = some l := by simp [termsAt, h]
    have h2 := ih (GoMap.set m field (appendValue (termsAt m field) v)) (l ++ [v])
      (by rw [goMap_get_set_self, h1]; rfl)
    rw [h2]
    simp

/-- The loop over a non-empty value list leaves the field holding its former list (empty
when absent or nil) followed by the values. -/
theorem termsLoop_get (field : String) (m : List (String × Option (List GoValue)))
    (vs : List GoValue) (hvs : vs ≠ []) :
    GoMap.get? (termsLoop field m vs) field = some (some ((termsAt m field).getD [] ++ vs)) := by
  cases vs with
  | nil => exact absurd rfl hvs
  | cons v vs =>
    rw [termsLoop_cons]
    have h := termsLoop_get_some field vs
      (GoMap.set m field (appendValue (termsAt m field) v)) ((termsAt m field).getD [] ++ [v])
      (by rw [goMap_get_set_self]; rfl)
    rw [h]
    simp

theorem termsLoop_other (field : String) (vs : List GoValue) :
    ∀ (m : List (String × Option (List GoValue))) (other : String), other ≠ field →
      GoMap.get? (termsLoop field m vs) other = GoMap.get? m other := by
  induction vs with
  | nil =>
    intro m other _
    rw [termsLoop_nil]
  | cons v vs ih =>
    intro m other h
    rw [termsLoop_cons, ih _ other h, goMap_get_set_other _ _ _ _ h]

theorem filterOp_terms_map (f : FilterOp) (field : String) (vs : List GoValue) :
    (f.Terms field vs).TermsMap = termsLoop field f.TermsMap vs := by
  cases f with
  | mk cur tm tsm range ex pv mv rm geo bools nested qd =>
    simp only [FilterOp.Terms, FilterOp.TermsMap]
    cases tsm <;> simp

/-- C10. After `Terms(field, vs...)` the list stored under `field` is the list stored
before the call (empty when the field was absent) followed by `vs` in order, the entries
of every other field are as before, and `Terms(field, a)` followed by `Terms(field, b)`
on a new filter leaves `[a, b]` under `field`. -/
theorem terms_append (f : FilterOp) (field : String) (vs : List GoValue) :
    (termsAt (f.Terms field vs).TermsMap field).getD [] =
      (termsAt f.TermsMap field).getD [] ++ vs ∧
    (vs ≠ [] → GoMap.get? (f.Terms field vs).TermsMap field =
      some (some ((termsAt f.TermsMap field).getD [] ++ vs))) ∧
    (∀ other, other ≠ field →
      GoMap.get? (f.Terms field vs).TermsMap other = GoMap.get? f.TermsMap other) ∧
    ∀ a b : GoValue,
      GoMap.get? ((Filter.Terms field [a]).Terms field [b]).TermsMap field =
        some (some [a, b]) := by
  have hget : ∀ (g : FilterOp) (ws : List GoValue), ws ≠ [] →
      GoMap.get? (g.Terms field ws).TermsMap field =
        some (some ((termsAt g.TermsMap field).getD [] ++ ws)) := by
    intro g ws hws
    rw [filterOp_terms_map]
    exact termsLoop_get field g.TermsMap ws hws
  refine ⟨?_, hget f vs, ?_, ?_⟩
  · cases vs with
    | nil =>
      rw [filterOp_terms_map, termsLoop_nil, List.append_nil]
    | cons v vs =>
      have h := hget f (v :: vs) (by simp)
      simp only [termsAt, h]
      rfl
  · intro other h
    rw [filterOp_terms_map]
    exact termsLoop_other field vs f.TermsMap other h
  · intro a b
    have h1 := hget Filter [a] (by simp)
    have h2 := hget (Filter.Terms field [a]) [b] (by simp)
    rw [h2]
    simp only [termsAt, h1]
    rfl

/-- The example of C10: `Terms("user", "kimchy")`, then `Terms("user", "elasticsearch")`;
the list of another field, `tag`, stays. -/
theorem terms_append_witness :
    GoMap.get?
        (((Filter.Terms "tag" [GoValue.str "x"]).Terms "user" [GoValue.str "kimchy"]).Terms "user"
          [GoValue.str "elasticsearch"]).TermsMap "user" =
      some (some [GoValue.str "kimchy", GoValue.str "elasticsearch"]) ∧
    "tag" ≠ "user" ∧
    GoMap.get?
        (((Filter.Terms "tag" [GoValue.str "x"]).Terms "user" [GoValue.str "kimchy"]).Terms "user"
          [GoValue.str "elasticsearch"]).TermsMap "tag" =
      some (some [GoValue.str "x"]) :=
  ⟨((terms_append ((Filter.Terms "tag" [GoValue.str "x"]).Terms "user" [GoValue.str "kimchy"])
      "user" [GoValue.str "elasticsearch"]).2.1 (by simp)).trans rfl,
    by decide,
    ((terms_append ((Filter.Terms "tag" [GoValue.str "x"]).Terms "user" [GoValue.str "kimchy"])
      "user" [GoValue.str "elasticsearch"]).2.2.1 "tag" (by decide)).trans rfl⟩

/-! ## `FilterOp.Add` and `QueryDsl.Range` -/

/-- C12. `f.Add(other)` changes the exists, missing and range groups of `f` only: each of
the three becomes the group of `other` when that group is non-empty and stays the group of
`f` otherwise; the term, terms, prefix, regexp, geo-distance-range, bool, nested and query
groups and the field cursor of `f` stay, whatever `other` holds. -/
theorem add_frame (f other : FilterOp) :
    (f.Add other).Exist = (if other.Exist.length > 0 then other.Exist else f.Exist) ∧
    (f.Add other).MisssingVal =
      (if other.MisssingVal.length > 0 then other.MisssingVal else f.MisssingVal) ∧
    (f.Add other).Range = (if rangeLen other.Range > 0 then other.Range else f.Range) ∧
    (f.Add other).TermMap = f.TermMap ∧
    (f.Add other).TermsMap = f.TermsMap ∧
    (f.Add other).PrefixVal = f.PrefixVal ∧
    (f.Add other).RegexpMap = f.RegexpMap ∧
    (f.Add other).GeoDistRange = f.GeoDistRange ∧
    (f.Add other).Bools = f.Bools ∧
    (f.Add other).NestedD = f.NestedD ∧
    (f.Add other).QueryD = f.QueryD ∧
    (f.Add other).curField = f.curField := by
  cases f
  exact ⟨rfl, rfl, rfl, rfl, rfl, rfl, rfl, rfl, rfl, rfl, rfl, rfl⟩

/-- The example of C12: adding a filter that holds a term and an exists test to a term
filter brings the exists test over and leaves the term of the receiver. -/
theorem add_frame_witness :
    (termUser.Add (existsRepo.Term "tag" "x")).Exist = [("field", "repository.name")] ∧
    (termUser.Add (existsRepo.Term "tag" "x")).TermMap = [("user", "kimchy")] ∧
    (termUser.Add (existsRepo.Term "tag" "x")).Range = none :=
  ⟨(add_frame termUser (existsRepo.Term "tag" "x")).1.trans rfl,
    (add_frame termUser (existsRepo.Term "tag" "x")).2.2.2.1.trans rfl,
    (add_frame termUser (existsRepo.Term "tag" "x")).2.2.1.trans rfl⟩

/-- C16. On a node without `FilterVal`, `Range(fop)` attaches `fop` as `FilterVal`; on a
node whose `FilterVal` is `g`, it leaves `g` attached, changed as by `g.Add(fop)`. The
query-shape fields and `FilterWrapVal` stay in both cases. -/
theorem range_attaches_or_merges (q : QueryDsl) (fop : FilterOp) :
    (q.FilterVal = none →
      q.Range (some fop) = some (QueryDsl.mk q.QueryEmbed (some fop) q.FilterWrapVal)) ∧
    (∀ g, q.FilterVal = some g →
      q.Range (some fop) =
        some (QueryDsl.mk q.QueryEmbed (some (g.Add fop)) q.FilterWrapVal)) := by
  cases q with
  | mk e fv fwv =>
    simp only [QueryDsl.FilterVal, QueryDsl.QueryEmbed, QueryDsl.FilterWrapVal]
    constructor
    · intro h
      subst h
      rfl
    · intro g h
      subst h
      rfl

/-- The example of C16: a range on a search node without filter, and the same range on a
search node that holds an exists filter already. -/
theorem range_attaches_or_merges_witness :
    (Query.Search "actor:\"bob\"").FilterVal = none ∧
    (Query.Search "actor:\"bob\"").Range (some timestampRangeOp) = some bobQuery ∧
    (QueryDsl.mk bobEmbed (some existsRepo) none).FilterVal = some existsRepo ∧
    (QueryDsl.mk bobEmbed (some existsRepo) none).Range (some timestampRangeOp) =
      some (QueryDsl.mk bobEmbed (some (existsRepo.Add timestampRangeOp)) none) ∧
    (existsRepo.Add timestampRangeOp).Exist = [("field", "repository.name")] ∧
    (existsRepo.Add timestampRangeOp).Range = timestampRangeOp.Range :=
  ⟨rfl,
    ((range_attaches_or_merges (Query.Search "actor:\"bob\"") timestampRangeOp).1 rfl).trans rfl,
    rfl,
    (range_attaches_or_merges (QueryDsl.mk bobEmbed (some existsRepo) none)
      timestampRangeOp).2 existsRepo rfl,
    rfl, rfl⟩

/-! ## `FilterOp.Term` -/

theorem filterOp_term_map (f : FilterOp) (n v : String) :
    (f.Term n v).TermMap = GoMap.set f.TermMap n v := by
  cases f with
  | mk cur tm tsm range ex pv mv rm geo bools nested qd =>
    simp only [FilterOp.Term, FilterOp.TermMap]
    cases tm <;> simp

/-- C18 as stated fails: a term set earlier on another field is kept by `Term`. -/
theorem term_replaces_counterexample :
    "user" ≠ "tag" ∧
    ((Filter.Term "user" "kimchy").Term "tag" "x").TermMap =
      [("user", "kimchy"), ("tag", "x")] ∧
    ((Filter.Term "user" "kimchy").Term "tag" "x").TermMap ≠ [("tag", "x")] ∧
    GoMap.get? ((Filter.Term "user" "kimchy").Term "tag" "x").TermMap "user" =
      some "kimchy" := by
  refine ⟨by decide, rfl, ?_, rfl⟩
  intro h
  have h2 := congrArg List.length h
  revert h2
  decide

/-- C18, amended. After `Term(field, value)` the term group maps `field` to `value`, a
term set earlier on the same field being replaced; the terms of every other field are
kept; and the group is the single pair `(field, value)` when it was empty before. -/
theorem term_sets_field (f : FilterOp) (field value : String) :
    GoMap.get? (f.Term field value).TermMap field = some value ∧
    (∀ other, other ≠ field →
      GoMap.get? (f.Term field value).TermMap other = GoMap.get? f.TermMap other) ∧
    (f.TermMap = [] → (f.Term field value).TermMap = [(field, value)]) := by
  rw [filterOp_term_map]
  refine ⟨goMap_get_set_self _ _ _, ?_, ?_⟩
  · intro other h
    exact goMap_get_set_other _ _ _ _ h
  · intro h
    rw [h]
    rfl

/-- The example of amended C18: `Term("user", "kimchy")`, `Term("tag", "x")`, then
`Term("user", "bob")`. -/
theorem term_sets_field_witness :
    GoMap.get? (((Filter.Term "user" "kimchy").Term "tag" "x").Term "user" "bob").TermMap "user" =
      some "bob" ∧
    "tag" ≠ "user" ∧
    GoMap.get? (((Filter.Term "user" "kimchy").Term "tag" "x").Term "user" "bob").TermMap "tag" =
      some "x" ∧
    (Filter.Term "user" "kimchy").TermMap = [("user", "kimchy")] :=
  ⟨(term_sets_field ((Filter.Term "user" "kimchy").Term "tag" "x") "user" "bob").1,
    by decide,
    ((term_sets_field ((Filter.Term "user" "kimchy").Term "tag" "x") "user" "bob").2.1 "tag"
      (by decide)).trans rfl,
    (term_sets_field Filter "user" "kimchy").2.2 rfl⟩

/-! ## `SortDsl.MarshalJSON` -/

/-- C14. A `SortDsl` marshals to the object whose single member, named `Name`, is the
object holding `order`, `desc` when `IsDesc` and `asc` otherwise, and holding `missing`
exactly when `Missing` is `_first` or `_last` (with that value); so `Sort("age")` gives
the order `asc` under `age` and `Sort("last_name").Desc()` the order `desc` under
`last_name`. -/
theorem sort_marshal (s : SortDsl) :
    s.MarshalJSON =
      Json.obj [(s.Name, Json.obj (
        (if s.Missing = "_first" ∨ s.Missing = "_last" then
          [("missing", Json.str s.Missing)] else [])
        ++ [("order", Json.str (if s.IsDesc then "desc" else "asc"))]))] ∧
    (SortField "age").MarshalJSON =
      Json.obj [("age", Json.obj [("order", Json.str "asc")])] ∧
    (SortField "last_name").Desc.MarshalJSON =
      Json.obj [("last_name", Json.obj [("order", Json.str "desc")])] := by
  refine ⟨?_, rfl, rfl⟩
  unfold SortDsl.MarshalJSON
  by_cases h : s.Missing = "_first" ∨ s.Missing = "_last"
  · simp only [h, if_true]
    cases s.IsDesc <;> rfl
  · simp only [h, if_false]
    cases s.IsDesc <;> rfl

/-! ## The range cursor: `Field` and the bound-setters -/

theorem add_range (f g : FilterOp) :
    (f.Add g).Range = if rangeLen g.Range > 0 then g.Range else f.Range := by
  cases f
  rfl

/-- Without a call of `Field` the range map holds no entry. -/
theorem noFieldCall_rangeLen (f : FilterOp) (h : NoFieldCall f) : rangeLen f.Range = 0 := by
  induction h with
  | ofFilter => rfl
  | ofRange => rfl
  | term f n v _ ih => cases f; exact ih
  | terms f n vs _ ih => cases f; exact ih
  | existsTest f n _ ih => cases f; exact ih
  | regexp f n r _ ih => cases f; exact ih
  | missing f n _ ih => cases f; exact ih
  | prefixVal f n v _ ih => cases f; exact ih
  | geo f a b c d lat lon _ ih => cases f; exact ih
  | bool f must should _ ih => cases f; exact ih
  | query f q _ ih => cases f; exact ih
  | nested f path inner frm size _ ih => cases f; exact ih
  | add f g _ _ ihf ihg =>
    rw [add_range, if_neg (by omega)]
    exact ihf

/-- On a range map without entry the write `f.Range[f.curField][key] = v` panics. -/
theorem setBound_none (f : FilterOp) (key : String) (v : GoValue)
    (h : rangeLen f.Range = 0) : f.setBound key v = none := by
  cases f with
  | mk cur tm tsm range ex pv mv rm geo bools nested qd =>
    cases range with
    | none => rfl
    | some r =>
      cases r with
      | nil => rfl
      | cons a t => simp [rangeLen, FilterOp.Range] at h

/-- `Field` on an allocated range map: the cursor moves and an empty entry is made when
the field has none. -/
theorem field_spec (f : FilterOp) (r : List (String × Option (List (String × GoValue))))
    (fld : String) (hr : f.Range = some r) :
    ∃ f1, f.Field fld = some f1 ∧ f1.curField = fld ∧
      f1.Range = some (match GoMap.get? r fld with
        | some _ => r
        | none => GoMap.set r fld (some [])) := by
  cases f with
  | mk cur tm tsm range ex pv mv rm geo bools nested qd =>
    simp only [FilterOp.Range] at hr
    subst hr
    cases h : GoMap.get? r fld with
    | none =>
      refine ⟨FilterOp.mk fld tm tsm (some (GoMap.set r fld (some []))) ex pv mv rm geo bools
        nested qd, ?_, rfl, rfl⟩
      simp only [FilterOp.Field, h]
    | some x =>
      refine ⟨FilterOp.mk fld tm tsm (some r) ex pv mv rm geo bools nested qd, ?_, rfl, rfl⟩
      simp only [FilterOp.Field, h]

/-- A bound write on an entry that is there and not nil. -/
theorem setBound_spec (f : FilterOp) (r : List (String × Option (List (String × GoValue))))
    (b : List (String × GoValue)) (key : String) (v : GoValue) (hr : f.Range = some r)
    (hb : GoMap.get? r f.curField = some (some b)) :
    ∃ f2, f.setBound key v = some f2 ∧ f2.curField = f.curField ∧
      f2.Range = some (GoMap.set r f.curField (some (GoMap.set b key v))) := by
  cases f with
  | mk cur tm tsm range ex pv mv rm geo bools nested qd =>
    simp only [FilterOp.Range] at hr
    simp only [FilterOp.curField] at hb ⊢
    subst hr
    refine ⟨FilterOp.mk cur tm tsm (some (GoMap.set r cur (some (GoMap.set b key v)))) ex pv mv
      rm geo bools nested qd, ?_, rfl, rfl⟩
    simp only [FilterOp.setBound, hb]

/-- Each of the six bound-setters is the write of its key. -/
theorem boundSetters_eq (s : String) (v : GoValue)
    (p : (FilterOp → Option FilterOp) × String × GoValue) (hp : p ∈ boundSetters s v)
    (f : FilterOp) : p.1 f = f.setBound p.2.1 p.2.2 := by
  simp only [boundSetters, List.mem_cons, List.mem_singleton, List.not_mem_nil, or_false] at hp
  rcases hp with rfl | rfl | rfl | rfl | rfl | rfl <;> rfl

/-- On a `FilterOp` created by `Range()` the range map is allocated and no entry of it is
a nil map. -/
theorem fromRange_inv (f : FilterOp) (h : FromRange f) :
    ∃ r, f.Range = some r ∧ ∀ k, GoMap.get? r k ≠ some none := by
  induction h with
  | ofRange => exact ⟨[], rfl, fun k hk => by simp [GoMap.get?] at hk⟩
  | term f n v _ ih => cases f; exact ih
  | terms f n vs _ ih => cases f; exact ih
  | existsTest f n _ ih => cases f; exact ih
  | regexp f n r _ ih => cases f; exact ih
  | missing f n _ ih => cases f; exact ih
  | prefixVal f n v _ ih => cases f; exact ih
  | geo f a b c d lat lon _ ih => cases f; exact ih
  | bool f must should _ ih => cases f; exact ih
  | query f q _ ih => cases f; exact ih
  | nested f path inner frm size _ ih => cases f; exact ih
  | add f g _ _ ihf ihg =>
    rw [add_range]
    split
    · exact ihg
    · exact ihf
  | addPlain f g _ hg ihf =>
    rw [add_range, if_neg (by have := noFieldCall_rangeLen g hg; omega)]
    exact ihf
  | field f fld f' _ hfield ih =>
    obtain ⟨r, hr, hnn⟩ := ih
    obtain ⟨f1, h1, _, hR⟩ := field_spec f r fld hr
    rw [h1] at hfield
    cases hfield
    refine ⟨_, hR, ?_⟩
    intro k
    cases hg : GoMap.get? r fld with
    | some x => exact hnn k
    | none =>
      simp only
      by_cases hk : k = fld
      · subst hk
        rw [goMap_get_set_self]
        simp
      · rw [goMap_get_set_other _ _ _ _ hk]
        exact hnn k
  | bound f s v p f' _ hp hset ih =>
    obtain ⟨r, hr, hnn⟩ := ih
    rw [boundSetters_eq s v p hp] at hset
    cases hb : GoMap.get? r f.curField with
    | none =>
      exfalso
      cases f with
      | mk cur tm tsm range ex pv mv rm geo bools nested qd =>
        simp only [FilterOp.Range] at hr
        simp only [FilterOp.curField] at hb
        subst hr
        simp [FilterOp.setBound, hb] at hset
    | some x =>
      cases x with
      | none => exact absurd hb (hnn _)
      | some b =>
        obtain ⟨f2, h2, _, hR⟩ := setBound_spec f r b p.2.1 p.2.2 hr hb
        rw [h2] at hset
        cases hset
        refine ⟨_, hR, ?_⟩
        intro k
        by_cases hk : k = f.curField
        · subst hk
          rw [goMap_get_set_self]
          simp
        · rw [goMap_get_set_other _ _ _ _ hk]
          exact hnn k

theorem rangeEntry_of_range (f : FilterOp)
    (r : List (String × Option (List (String × GoValue)))) (hr : f.Range = some r)
    (k : String) : f.rangeEntry k = GoMap.get? r k := by
  simp [FilterOp.rangeEntry, hr]

/-- What a bound write leaves behind: the key holds the value, the other keys of the
current field and the entries of the other fields are as before. -/
theorem setBound_effect (f : FilterOp) (r : List (String × Option (List (String × GoValue))))
    (b : List (String × GoValue)) (key : String) (v : GoValue) (hr : f.Range = some r)
    (hb : GoMap.get? r f.curField = some (some b)) :
    ∃ f2, f.setBound key v = some f2 ∧ f2.curField = f.curField ∧
      f2.boundAt f.curField key = some v ∧
      (∀ key', key' ≠ key → f2.boundAt f.curField key' = f.boundAt f.curField key') ∧
      (∀ k, k ≠ f.curField → f2.rangeEntry k = f.rangeEntry k) := by
  obtain ⟨f2, h2, hcur, hR⟩ := setBound_spec f r b key v hr hb
  refine ⟨f2, h2, hcur, ?_, ?_, ?_⟩
  · simp only [FilterOp.boundAt, rangeEntry_of_range f2 _ hR, goMap_get_set_self]
  · intro key' hk
    simp only [FilterOp.boundAt, rangeEntry_of_range f2 _ hR, rangeEntry_of_range f r hr,
      goMap_get_set_self, hb]
    exact goMap_get_set_other _ _ _ _ hk
  · intro k hk
    rw [rangeEntry_of_range f2 _ hR, rangeEntry_of_range f r hr]
    exact goMap_get_set_other _ _ _ _ hk

/-- A `FilterOp` on which `Field` has not been called has its cursor on the empty name. -/
theorem fieldNotCalled_cursor (f : FilterOp) (h : FieldNotCalled f) : f.curField = "" := by
  induction h with
  | ofFilter => rfl
  | ofRange => rfl
  | term f n v _ ih => cases f; exact ih
  | terms f n vs _ ih => cases f; exact ih
  | existsTest f n _ ih => cases f; exact ih
  | regexp f n r _ ih => cases f; exact ih
  | missing f n _ ih => cases f; exact ih
  | prefixVal f n v _ ih => cases f; exact ih
  | geo f a b c d lat lon _ ih => cases f; exact ih
  | bool f must should _ ih => cases f; exact ih
  | query f q _ ih => cases f; exact ih
  | nested f path inner frm size _ ih => cases f; exact ih
  | add f g _ ih => cases f; exact ih

/-- The write `f.Range[f.curField][key] = v` panics exactly when the range map has no
entry that is not nil under the cursor. -/
theorem setBound_eq_none_iff (f : FilterOp) (key : String) (v : GoValue) :
    f.setBound key v = none ↔ ∀ b, f.rangeEntry f.curField ≠ some (some b) := by
  cases f with
  | mk cur tm tsm range ex pv mv rm geo bools nested qd =>
    simp only [FilterOp.rangeEntry, FilterOp.curField, FilterOp.Range]
    cases range with
    | none =>
      simp only [FilterOp.setBound, Option.getD_none, GoMap.get?, true_iff]
      intro b hb
      cases hb
    | some r =>
      simp only [Option.getD_some]
      cases hg : GoMap.get? r cur with
      | none =>
        simp only [FilterOp.setBound, hg, true_iff]
        intro b hb
        cases hb
      | some x =>
        cases x with
        | none =>
          simp only [FilterOp.setBound, hg, true_iff]
          intro b hb
          cases hb
        | some b0 =>
          simp only [FilterOp.setBound, hg]
          constructor
          · intro h
            cases h
          · intro h
            exact absurd rfl (h b0)

/-- C11 as stated fails: on `Filter().Add(Range().Field(""))`, a `FilterOp` on which
`Field` has not been called, `From` and `Gt` return a node, having written into the entry
that `Add` brought in. -/
theorem bound_before_field_counterexample :
    Range.Field "" = some emptyFieldRange ∧
    FieldNotCalled (Filter.Add emptyFieldRange) ∧
    (Filter.Add emptyFieldRange).From "2012-12-29T16:52:48+00:00" =
      some (FilterOp.mk "" [] []
        (some [("", some [("from", GoValue.str "2012-12-29T16:52:48+00:00")])])
        [] [] [] [] none none none none) ∧
    (Filter.Add emptyFieldRange).Gt (GoValue.int 21) =
      some (FilterOp.mk "" [] [] (some [("", some [("gt", GoValue.int 21)])])
        [] [] [] [] none none none none) :=
  ⟨rfl, FieldNotCalled.add Filter emptyFieldRange FieldNotCalled.ofFilter, rfl, rfl⟩

/-- C11, amended. On a `FilterOp` created by `Range()` or `Filter()` on which `Field` has
not been called the cursor is the empty name, and each of `From`, `To`, `Gt`, `Gte`, `Lt`
and `Lte` panics, returning no node and creating no entry, exactly when the range map has
no entry that is not nil under the empty name; so always when the range map has no entry
at all. When `Add` has brought in such an entry, each of them returns and writes its key
into it. -/
theorem bound_before_field (f : FilterOp) (h : FieldNotCalled f) (s : String) (v : GoValue) :
    f.curField = "" ∧
    (∀ p ∈ boundSetters s v, (p.1 f = none ↔ ∀ b, f.rangeEntry "" ≠ some (some b))) ∧
    (rangeLen f.Range = 0 → ∀ p ∈ boundSetters s v, p.1 f = none) ∧
    (∀ p ∈ boundSetters s v, ∀ b, f.rangeEntry "" = some (some b) →
      ∃ f2, p.1 f = some f2 ∧ f2.boundAt "" p.2.1 = some p.2.2) := by
  have hcur := fieldNotCalled_cursor f h
  refine ⟨hcur, ?_, ?_, ?_⟩
  · intro p hp
    rw [boundSetters_eq s v p hp, setBound_eq_none_iff, hcur]
  · intro h0 p hp
    rw [boundSetters_eq s v p hp]
    exact setBound_none f _ _ h0
  · intro p hp b hb
    rw [boundSetters_eq s v p hp]
    cases hr : f.Range with
    | none =>
      simp [FilterOp.rangeEntry, hr, GoMap.get?] at hb
    | some r =>
      have hb' : GoMap.get? r f.curField = some (some b) := by
        rw [hcur]
        simpa [FilterOp.rangeEntry, hr] using hb
      obtain ⟨f2, h2, _, hset, _, _⟩ := setBound_effect f r b p.2.1 p.2.2 hr hb'
      rw [hcur] at hset
      exact ⟨f2, h2, hset⟩

/-- The examples of amended C11: `Range().Exists("repository.name")`, as in the comment on
`Range`, whose range map has no entry, and `Filter().Add(Range().Field("age"))`, whose
range map has an entry under `age` and none under the empty name. -/
theorem bound_before_field_witness :
    FieldNotCalled (Range.Exists "repository.name") ∧
    rangeLen (Range.Exists "repository.name").Range = 0 ∧
    (Range.Exists "repository.name").From "2012-12-29T16:52:48+00:00" = none ∧
    FieldNotCalled (Filter.Add ageRange) ∧
    (Filter.Add ageRange).Range = some [("age", some [])] ∧
    (Filter.Add ageRange).Gt (GoValue.int 21) = none :=
  ⟨FieldNotCalled.existsTest Range "repository.name" FieldNotCalled.ofRange,
    rfl,
    (bound_before_field (Range.Exists "repository.name")
      (FieldNotCalled.existsTest Range "repository.name" FieldNotCalled.ofRange)
      "2012-12-29T16:52:48+00:00" (GoValue.int 21)).2.2.1 rfl
      (fun f => f.From "2012-12-29T16:52:48+00:00", "from",
        GoValue.str "2012-12-29T16:52:48+00:00") (by simp [boundSetters]),
    FieldNotCalled.add Filter ageRange FieldNotCalled.ofFilter,
    rfl,
    ((bound_before_field (Filter.Add ageRange)
      (FieldNotCalled.add Filter ageRange FieldNotCalled.ofFilter)
      "" (GoValue.int 21)).2.1
      (fun f => f.Gt (GoValue.int 21), "gt", GoValue.int 21) (by simp [boundSetters])).mpr
      (fun b hb => by
        have h0 : (Filter.Add ageRange).rangeEntry "" = none := rfl
        rw [h0] at hb
        cases hb)⟩

/-- C20. On a `FilterOp` created by `Range()`, `Field(fld)` returns with the cursor on
`fld` and changes no bound of any field (a field that has an entry keeps its bounds, and
the range map is then left as it is); after it each of `From`, `To`, `Gt`, `Gte`, `Lt`
and `Lte` returns, writes its own key in the entry of `fld` and leaves the other keys of
`fld` and the entries of every other field as they were. -/
theorem field_cursor (f : FilterOp) (h : FromRange f) (fld s : String) (v : GoValue) :
    ∃ f1, f.Field fld = some f1 ∧ f1.curField = fld ∧
      (∀ k key, f1.boundAt k key = f.boundAt k key) ∧
      (∀ e, f.rangeEntry fld = some e → f1.Range = f.Range) ∧
      ∀ p ∈ boundSetters s v, ∃ f2, p.1 f1 = some f2 ∧ f2.curField = fld ∧
        f2.boundAt fld p.2.1 = some p.2.2 ∧
        (∀ key, key ≠ p.2.1 → f2.boundAt fld key = f1.boundAt fld key) ∧
        (∀ k, k ≠ fld → f2.rangeEntry k = f1.rangeEntry k) := by
  obtain ⟨r, hr, hnn⟩ := fromRange_inv f h
  obtain ⟨f1, hF, hcur, hR1⟩ := field_spec f r fld hr
  have h1 : FromRange f1 := FromRange.field f fld f1 h hF
  obtain ⟨r1, hr1, hnn1⟩ := fromRange_inv f1 h1
  refine ⟨f1, hF, hcur, ?_, ?_, ?_⟩
  · intro k key
    simp only [FilterOp.boundAt, rangeEntry_of_range f1 _ hR1, rangeEntry_of_range f r hr]
    cases hg : GoMap.get? r fld with
    | some x => rfl
    | none =>
      simp only
      by_cases hk : k = fld
      · subst hk
        rw [goMap_get_set_self, hg]
        rfl
      · rw [goMap_get_set_other _ _ _ _ hk]
  · intro e he
    rw [rangeEntry_of_range f r hr] at he
    rw [hR1, hr, he]
  · intro p hp
    rw [boundSetters_eq s v p hp]
    have hentry : ∃ b1, GoMap.get? r1 f1.curField = some (some b1) := by
      have hr1' : r1 = (match GoMap.get? r fld with
          | some _ => r
          | none => GoMap.set r fld (some [])) := by
        rw [hR1] at hr1
        exact (Option.some.inj hr1).symm
      rw [hcur]
      cases hg : GoMap.get? r fld with
      | some x =>
        rw [hg] at hr1'
        simp only at hr1'
        subst hr1'
        cases x with
        | none => exact absurd hg (hnn fld)
        | some b => exact ⟨b, hg⟩
      | none =>
        rw [hg] at hr1'
        simp only at hr1'
        subst hr1'
        exact ⟨[], goMap_get_set_self _ _ _⟩
    obtain ⟨b1, hb1⟩ := hentry
    obtain ⟨f2, h2, hc2, hset, hkeys, hflds⟩ := setBound_effect f1 r1 b1 p.2.1 p.2.2 hr1 hb1
    rw [hcur] at hc2 hset hkeys hflds
    exact ⟨f2, h2, hc2, hset, hkeys, hflds⟩

/-- The example of C20: on `Range().Field("age").Gte(21)`, `Lt(65)` writes `lt` and keeps
`gte`; after `Field("score")` and `Gt(3)` the bounds of `age` are still there, and
`Field("age")` once more keeps them too. -/
theorem field_cursor_witness :
    FromRange Range ∧
    Range.Field "age" = some ageRange ∧
    ((ageRange.Gte (GoValue.int 21)).bind fun f => f.Lt (GoValue.int 65)) =
      some (FilterOp.mk "age" [] []
        (some [("age", some [("gte", GoValue.int 21), ("lt", GoValue.int 65)])])
        [] [] [] [] none none none none) ∧
    ((((ageRange.Gte (GoValue.int 21)).bind fun f => f.Field "score").bind
        fun f => f.Gt (GoValue.int 3)).bind fun f => f.Field "age") =
      some (FilterOp.mk "age" [] []
        (some [("age", some [("gte", GoValue.int 21)]), ("score", some [("gt", GoValue.int 3)])])
        [] [] [] [] none none none none) ∧
    ∃ f1, Range.Field "age" = some f1 ∧ f1.curField = "age" ∧
      ∃ f2, f1.Gte (GoValue.int 21) = some f2 ∧
        f2.boundAt "age" "gte" = some (GoValue.int 21) := by
  refine ⟨FromRange.ofRange, rfl, rfl, rfl, ?_⟩
  obtain ⟨f1, hF, hcur, _, _, hset⟩ := field_cursor Range FromRange.ofRange "age" "" (GoValue.int 21)
  obtain ⟨f2, h2, _, hb, _, _⟩ := hset (fun f => f.Gte (GoValue.int 21), "gte", GoValue.int 21)
    (by simp [boundSetters])
  exact ⟨f1, hF, hcur, f2, h2, hb⟩

/-! ## The encoding of a `FilterOp` -/

theorem marshalNestedDsl_nil (rt : GoRuntime) (path : String) (inner : Option InnerHitsOptions) :
    marshalNestedDsl rt (NestedDsl.mk none path inner) =
      some (Json.obj (omitEmpty (path != "") "path" (Json.str path)
        ++ (match inner with
            | none => []
            | some o => [("inner_hits", marshalInnerHits o)]))) := by
  cases inner <;> rfl

theorem marshalNestedDsl_some (rt : GoRuntime) (f : FilterOp) (path : String)
    (inner : Option InnerHitsOptions) :
    marshalNestedDsl rt (NestedDsl.mk (some f) path inner) =
      match marshalFilterOp rt f with
      | some j =>
        some (Json.obj ([("filter", j)] ++ omitEmpty (path != "") "path" (Json.str path)
          ++ (match inner with
              | none => []
              | some o => [("inner_hits", marshalInnerHits o)])))
      | none => none := by
  cases inner <;> rfl

theorem marshalFilterOp_mk (rt : GoRuntime) (cur : String) (termMap : GoMap String)
    (termsMap : List (String × Option (List GoValue)))
    (range : Option (List (String × Option (List (String × GoValue)))))
    (exist prefixVal misssingVal regexpMap : GoMap String) (geo : Option GeoDistanceRange)
    (bools : Option FilterBoolDsl) (nested : Option NestedDsl) (queryD : Option QueryDsl) :
    marshalFilterOp rt (FilterOp.mk cur termMap termsMap range exist prefixVal misssingVal
        regexpMap geo bools nested queryD) =
      match marshalTermsMap rt termsMap,
          (match range with
            | none => some []
            | some r => marshalRange rt r),
          (match geo with
            | none => some []
            | some g =>
              (rt.compact (g.MarshalJSON rt)).map fun j => [("geo_distance_range", j)]),
          (match bools with
            | none => some []
            | some b => (marshalFilterBoolDsl rt b).map fun j => [("bool", j)]),
          (match nested with
            | none => some []
            | some n => (marshalNestedDsl rt n).map fun j => [("nested", j)]),
          (match queryD with
            | none => some []
            | some q => (QueryDsl.MarshalJSON rt q).map fun j => [("query", j)]) with
      | some terms, some rng, some g, some b, some n, some q =>
        some (Json.obj (
          omitEmpty (!termMap.isEmpty) "term" (marshalStrMap termMap)
          ++ omitEmpty (!termsMap.isEmpty) "terms" (Json.obj (sortKeys terms))
          ++ omitEmpty (!rng.isEmpty) "range" (Json.obj (sortKeys rng))
          ++ omitEmpty (!exist.isEmpty) "exists" (marshalStrMap exist)
          ++ omitEmpty (!prefixVal.isEmpty) "prefix" (marshalStrMap prefixVal)
          ++ omitEmpty (!misssingVal.isEmpty) "missing" (marshalStrMap misssingVal)
          ++ omitEmpty (!regexpMap.isEmpty) "regexp" (marshalStrMap regexpMap)
          ++ g ++ b ++ n ++ q))
      | _, _, _, _, _, _ => none := by
  cases range <;> cases geo <;> cases bools <;> cases nested <;> cases queryD <;> rfl

theorem marshalRange_nil (rt : GoRuntime) : marshalRange rt [] = some [] := rfl

theorem marshalRange_cons_nil (rt : GoRuntime) (k : String)
    (m : List (String × Option (List (String × GoValue)))) :
    marshalRange rt ((k, none) :: m) =
      (marshalRange rt m).map fun js => (k, Json.null) :: js := rfl

theorem marshalRange_cons_some (rt : GoRuntime) (k : String) (b : List (String × GoValue))
    (m : List (String × Option (List (String × GoValue)))) :
    marshalRange rt ((k, some b) :: m) =
      match marshalMembers rt b, marshalRange rt m with
      | some j, some js => some ((k, Json.obj (sortKeys j)) :: js)
      | _, _ => none := rfl

/-- The range map is written with one member for each of its entries. -/
theorem marshalRange_length (rt : GoRuntime)
    (r : List (String × Option (List (String × GoValue)))) :
    ∀ rng, marshalRange rt r = some rng → rng.length = r.length := by
  induction r with
  | nil =>
    intro rng h
    rw [marshalRange_nil] at h
    cases h
    rfl
  | cons kv m ih =>
    intro rng h
    obtain ⟨k, e⟩ := kv
    cases e with
    | none =>
      rw [marshalRange_cons_nil] at h
      cases hm : marshalRange rt m with
      | none => rw [hm] at h; simp at h
      | some js =>
        rw [hm] at h
        simp only [Option.map_some', Option.some.injEq] at h
        subst h
        simp [ih js hm]
    | some b =>
      rw [marshalRange_cons_some] at h
      cases hb : marshalMembers rt b with
      | none => rw [hb] at h; simp at h
      | some j =>
        cases hm : marshalRange rt m with
        | none => rw [hb, hm] at h; simp at h
        | some js =>
          rw [hb, hm] at h
          simp only [Option.some.injEq] at h
          subst h
          simp [ih js hm]

theorem omitEmpty_keys (present : Bool) (key : String) (j : Json) :
    (omitEmpty present key j).map Prod.fst = if present then [key] else [] := by
  cases present <;> rfl

/-- The member list of a pointer that is set: one member, named by the key. -/
theorem oneMember_keys (r : Option Json) (key : String) (l : List (String × Json))
    (h : r.map (fun j => [(key, j)]) = some l) : l.map Prod.fst = [key] := by
  cases r with
  | none => simp at h
  | some j =>
    simp only [Option.map_some', Option.some.injEq] at h
    subst h
    rfl

theorem isEmpty_eq_length {α : Type} (l : List α) : (!l.isEmpty) = decide (l.length > 0) := by
  cases l <;> simp

/-- The members of an encoded `FilterOp` are the populated groups, in the order of the
struct declaration. -/
theorem marshalFilterOp_keys (rt : GoRuntime) (f : FilterOp) (j : Json)
    (h : marshalFilterOp rt f = some j) : j.keys = populatedGroups f := by
  cases f with
  | mk cur tm tsm range ex pv mv rm geo bools nested qd =>
    rw [marshalFilterOp_mk] at h
    split at h
    · rename_i terms rng g b n q hterms hrng hg hb hn hq
      simp only [Option.some.injEq] at h
      subst h
      have hg' : g.map Prod.fst = if geo.isSome then ["geo_distance_range"] else [] := by
        cases geo with
        | none => simp only [Option.some.injEq] at hg; subst hg; rfl
        | some x => simp only at hg; exact oneMember_keys _ _ _ hg
      have hb' : b.map Prod.fst = if bools.isSome then ["bool"] else [] := by
        cases bools with
        | none => simp only [Option.some.injEq] at hb; subst hb; rfl
        | some x => simp only at hb; exact oneMember_keys _ _ _ hb
      have hn' : n.map Prod.fst = if nested.isSome then ["nested"] else [] := by
        cases nested with
        | none => simp only [Option.some.injEq] at hn; subst hn; rfl
        | some x => simp only at hn; exact oneMember_keys _ _ _ hn
      have hq' : q.map Prod.fst = if qd.isSome then ["query"] else [] := by
        cases qd with
        | none => simp only [Option.some.injEq] at hq; subst hq; rfl
        | some x => simp only at hq; exact oneMember_keys _ _ _ hq
      have hr' : rng.length = rangeLen range := by
        cases range with
        | none =>
          simp only [Option.some.injEq] at hrng
          subst hrng
          rfl
        | some r => exact marshalRange_length rt r rng hrng
      have hr'' : (!rng.isEmpty) = decide (rangeLen range > 0) := by
        rw [isEmpty_eq_length, hr']
      simp only [Json.keys, populatedGroups, List.map_append, omitEmpty_keys, hg', hb', hn', hq',
        hr'', isEmpty_eq_length, FilterOp.TermMap, FilterOp.TermsMap, FilterOp.Range,
        FilterOp.Exist, FilterOp.PrefixVal, FilterOp.MisssingVal, FilterOp.RegexpMap,
        FilterOp.GeoDistRange, FilterOp.Bools, FilterOp.NestedD, FilterOp.QueryD,
        decide_eq_true_eq]
    · simp at h

/-- A `FilterOp` can be encoded exactly when each of its terms, range,
geo-distance-range, bool, nested and query groups can (a group that is not set asks for
nothing). -/
theorem marshalFilterOp_isSome_iff (rt : GoRuntime) (f : FilterOp) :
    (marshalFilterOp rt f).isSome ↔
      ((marshalTermsMap rt f.TermsMap).isSome ∧
        (∀ r, f.Range = some r → (marshalRange rt r).isSome) ∧
        (∀ g, f.GeoDistRange = some g → (rt.compact (g.MarshalJSON rt)).isSome) ∧
        (∀ b, f.Bools = some b → (marshalFilterBoolDsl rt b).isSome) ∧
        (∀ n, f.NestedD = some n → (marshalNestedDsl rt n).isSome) ∧
        (∀ q, f.QueryD = some q → (QueryDsl.MarshalJSON rt q).isSome)) := by
  cases f with
  | mk cur tm tsm range ex pv mv rm geo bools nested qd =>
    rw [marshalFilterOp_mk]
    simp only [FilterOp.TermsMap, FilterOp.Range, FilterOp.GeoDistRange, FilterOp.Bools,
      FilterOp.NestedD, FilterOp.QueryD]
    split
    · rename_i terms rng g b n q hterms hrng hg hb hn hq
      simp only [Option.isSome_some, true_iff]
      refine ⟨by rw [hterms]; rfl, ?_, ?_, ?_, ?_, ?_⟩
      · intro r hr
        subst hr
        simp only at hrng
        rw [hrng]
        rfl
      · intro x hx
        subst hx
        simp only at hg
        cases hc : rt.compact (x.MarshalJSON rt) with
        | none => rw [hc] at hg; simp at hg
        | some j => rfl
      · intro x hx
        subst hx
        simp only at hb
        cases hc : marshalFilterBoolDsl rt x with
        | none => rw [hc] at hb; simp at hb
        | some j => rfl
      · intro x hx
        subst hx
        simp only at hn
        cases hc : marshalNestedDsl rt x with
        | none => rw [hc] at hn; simp at hn
        | some j => rfl
      · intro x hx
        subst hx
        simp only at hq
        cases hc : QueryDsl.MarshalJSON rt x with
        | none => rw [hc] at hq; simp at hq
        | some j => rfl
    · rename_i hno
      simp only [Option.isSome_none, Bool.false_eq_true, false_iff]
      rintro ⟨h1, h2, h3, h4, h5, h6⟩
      refine hno _ _ _ _ _ _ (Option.some_get ?a).symm (Option.some_get ?b).symm
        (Option.some_get ?c).symm (Option.some_get ?d).symm (Option.some_get ?e).symm
        (Option.some_get ?f).symm
      · exact h1
      · cases range with
        | none => rfl
        | some r => exact h2 r rfl
      · cases geo with
        | none => rfl
        | some x =>
          have := h3 x rfl
          simp only [Option.isSome_map']
          exact this
      · cases bools with
        | none => rfl
        | some x =>
          have := h4 x rfl
          simp only [Option.isSome_map']
          exact this
      · cases nested with
        | none => rfl
        | some x =>
          have := h5 x rfl
          simp only [Option.isSome_map']
          exact this
      · cases qd with
        | none => rfl
        | some x =>
          have := h6 x rfl
          simp only [Option.isSome_map']
          exact this

/-- A `FilterOp` whose terms, range, geo-distance-range, bool, nested and query groups are
not populated is always encoded: one member for each of its populated term, exists,
prefix, missing and regexp groups. -/
theorem marshalFilterOp_plain (rt : GoRuntime) (f : FilterOp) (h1 : f.TermsMap = [])
    (h2 : rangeLen f.Range = 0) (h3 : f.GeoDistRange = none) (h4 : f.Bools = none)
    (h5 : f.NestedD = none) (h6 : f.QueryD = none) :
    marshalFilterOp rt f =
      some (Json.obj (
        omitEmpty (!f.TermMap.isEmpty) "term" (marshalStrMap f.TermMap)
        ++ omitEmpty (!f.Exist.isEmpty) "exists" (marshalStrMap f.Exist)
        ++ omitEmpty (!f.PrefixVal.isEmpty) "prefix" (marshalStrMap f.PrefixVal)
        ++ omitEmpty (!f.MisssingVal.isEmpty) "missing" (marshalStrMap f.MisssingVal)
        ++ omitEmpty (!f.RegexpMap.isEmpty) "regexp" (marshalStrMap f.RegexpMap))) := by
  cases f with
  | mk cur tm tsm range ex pv mv rm geo bools nested qd =>
    simp only [FilterOp.TermsMap, FilterOp.Range, FilterOp.GeoDistRange, FilterOp.Bools,
      FilterOp.NestedD, FilterOp.QueryD] at h1 h2 h3 h4 h5 h6
    subst h1 h3 h4 h5 h6
    simp only [FilterOp.TermMap, FilterOp.Exist, FilterOp.PrefixVal, FilterOp.MisssingVal,
      FilterOp.RegexpMap]
    have hnil : marshalTermsMap rt [] = some [] := rfl
    cases range with
    | none =>
      rw [marshalFilterOp_mk, hnil]
      simp [omitEmpty]
    | some r =>
      cases r with
      | nil =>
        rw [marshalFilterOp_mk, hnil]
        simp [omitEmpty, marshalRange_nil]
      | cons a t => simp [rangeLen] at h2

/-- C13 as stated fails: a filter holding a term and an exists test is encoded with both
members, `term` and `exists`, not with `term` alone. -/
theorem marshalFilterOp_single_shape_counterexample :
    populatedGroups termAndExists = ["term", "exists"] ∧
    marshalFilterOp strictRuntime termAndExists =
      some (Json.obj [("term", Json.obj [("user", Json.str "kimchy")]),
        ("exists", Json.obj [("field", Json.str "repository.name")])]) ∧
    ∀ v, marshalFilterOp strictRuntime termAndExists ≠ some (Json.obj [("term", v)]) := by
  refine ⟨rfl, rfl, ?_⟩
  intro v h
  have h2 : (["term"] : List String) = ["term", "exists"] :=
    marshalFilterOp_keys strictRuntime termAndExists _ h
  revert h2
  decide

/-- C13, amended. A `FilterOp` is encoded exactly when each of its terms, range,
geo-distance-range, bool, nested and query groups can be encoded, so always when none of
these is populated; the object then has one member for every populated group, in the order
term, terms, range, exists, prefix, missing, regexp, geo_distance_range, bool, nested,
query, and no populated group is left out. -/
theorem marshalFilterOp_every_group (rt : GoRuntime) (f : FilterOp) :
    ((marshalFilterOp rt f).isSome ↔
      ((marshalTermsMap rt f.TermsMap).isSome ∧
        (∀ r, f.Range = some r → (marshalRange rt r).isSome) ∧
        (∀ g, f.GeoDistRange = some g → (rt.compact (g.MarshalJSON rt)).isSome) ∧
        (∀ b, f.Bools = some b → (marshalFilterBoolDsl rt b).isSome) ∧
        (∀ n, f.NestedD = some n → (marshalNestedDsl rt n).isSome) ∧
        (∀ q, f.QueryD = some q → (QueryDsl.MarshalJSON rt q).isSome))) ∧
    (f.TermsMap = [] → rangeLen f.Range = 0 → f.GeoDistRange = none → f.Bools = none →
      f.NestedD = none → f.QueryD = none → (marshalFilterOp rt f).isSome) ∧
    (∀ j, marshalFilterOp rt f = some j →
      j.keys = populatedGroups f ∧ j.keys.length = (populatedGroups f).length) := by
  refine ⟨marshalFilterOp_isSome_iff rt f, ?_, ?_⟩
  · intro h1 h2 h3 h4 h5 h6
    rw [marshalFilterOp_plain rt f h1 h2 h3 h4 h5 h6]
    rfl
  · intro j hj
    have hk := marshalFilterOp_keys rt f j hj
    exact ⟨hk, by rw [hk]⟩

/-- The example of amended C13: the filter holding a term and an exists test is encoded,
with two members, `term` first. -/
theorem marshalFilterOp_every_group_witness :
    (marshalFilterOp strictRuntime termAndExists).isSome ∧
    (Json.obj [("term", Json.obj [("user", Json.str "kimchy")]),
      ("exists", Json.obj [("field", Json.str "repository.name")])]).keys =
      ["term", "exists"] :=
  ⟨(marshalFilterOp_every_group strictRuntime termAndExists).2.1 rfl rfl rfl rfl rfl rfl,
    ((marshalFilterOp_every_group strictRuntime termAndExists).2.2 _ rfl).1.trans rfl⟩

/-- C19. The object encoding a `FilterOp` has the member of a group exactly when the
group is populated (a map group of length above 0, a pointer group that is set), and it
has no other member; `Filter()` with nothing set is encoded as the empty object. -/
theorem marshalFilterOp_sparse (rt : GoRuntime) (f : FilterOp) :
    (∀ j, marshalFilterOp rt f = some j →
      ("term" ∈ j.keys ↔ f.TermMap ≠ []) ∧
      ("terms" ∈ j.keys ↔ f.TermsMap ≠ []) ∧
      ("range" ∈ j.keys ↔ 0 < rangeLen f.Range) ∧
      ("exists" ∈ j.keys ↔ f.Exist ≠ []) ∧
      ("prefix" ∈ j.keys ↔ f.PrefixVal ≠ []) ∧
      ("missing" ∈ j.keys ↔ f.MisssingVal ≠ []) ∧
      ("regexp" ∈ j.keys ↔ f.RegexpMap ≠ []) ∧
      ("geo_distance_range" ∈ j.keys ↔ f.GeoDistRange ≠ none) ∧
      ("bool" ∈ j.keys ↔ f.Bools ≠ none) ∧
      ("nested" ∈ j.keys ↔ f.NestedD ≠ none) ∧
      ("query" ∈ j.keys ↔ f.QueryD ≠ none) ∧
      ∀ k ∈ j.keys, k ∈ ["term", "terms", "range", "exists", "prefix", "missing", "regexp",
        "geo_distance_range", "bool", "nested", "query"]) ∧
    marshalFilterOp rt Filter = some (Json.obj []) := by
  refine ⟨?_, rfl⟩
  intro j hj
  rw [marshalFilterOp_keys rt f j hj]
  have hlen : ∀ {α : Type} (l : List α), l.length > 0 ↔ l ≠ [] := by
    intro α l
    cases l <;> simp
  have hopt : ∀ {α : Type} (o : Option α), o.isSome = true ↔ o ≠ none := by
    intro α o
    cases o <;> simp
  simp only [populatedGroups, List.mem_append, ← hlen, ← hopt]
  refine ⟨?_, ?_, ?_, ?_, ?_, ?_, ?_, ?_, ?_, ?_, ?_, ?_⟩
  all_goals
    first
      | (intro k hk
         rcases hk with (((((((((hk | hk) | hk) | hk) | hk) | hk) | hk) | hk) | hk) | hk) | hk
         all_goals (split at hk <;> simp at hk; simp [hk]))
      | (constructor
         · intro hk
           rcases hk with (((((((((hk | hk) | hk) | hk) | hk) | hk) | hk) | hk) | hk) | hk) | hk
           all_goals (split at hk <;> simp at hk <;> assumption)
         · intro hp
           simp [hp])

/-- The example of C19: the range filter over `@timestamp` is encoded with the member
`range` and with no `term` member. -/
theorem marshalFilterOp_sparse_witness :
    marshalFilterOp strictRuntime timestampRangeOp = some timestampRangeJson ∧
    ("range" ∈ timestampRangeJson.keys ↔ 0 < rangeLen timestampRangeOp.Range) ∧
    ("term" ∈ timestampRangeJson.keys ↔ timestampRangeOp.TermMap ≠ []) ∧
    rangeLen timestampRangeOp.Range = 1 ∧ timestampRangeOp.TermMap = [] :=
  ⟨rfl,
    ((marshalFilterOp_sparse strictRuntime timestampRangeOp).1 timestampRangeJson rfl).2.2.1,
    ((marshalFilterOp_sparse strictRuntime timestampRangeOp).1 timestampRangeJson rfl).1,
    rfl, rfl⟩

/-! ## `FilterOp.Nested` -/

/-- C15. After `q.Nested(path, inner, from, size)`, whatever `q` held before, the nested
group holds `path` and `inner`, and inner hits exactly when `size > 0`, then with the
given `from` and `size`; the encoded nested object (there is one when `inner` is nil or
can be encoded) has the member `inner_hits`, holding `from` and `size`, exactly when
`size > 0`. -/
theorem nested_inner_hits (rt : GoRuntime) (q : FilterOp) (path : String)
    (inner : Option FilterOp) (frm size : Int) :
    (q.Nested path inner frm size).NestedD =
      some (NestedDsl.mk inner path (if size > 0 then some ⟨frm, size⟩ else none)) ∧
    marshalNestedDsl rt (NestedDsl.mk none path (if size > 0 then some ⟨frm, size⟩ else none)) =
      some (Json.obj (omitEmpty (path != "") "path" (Json.str path)
        ++ (if size > 0 then
          [("inner_hits", Json.obj [("from", Json.int frm), ("size", Json.int size)])]
          else []))) ∧
    (∀ f jf, marshalFilterOp rt f = some jf →
      marshalNestedDsl rt
          (NestedDsl.mk (some f) path (if size > 0 then some ⟨frm, size⟩ else none)) =
        some (Json.obj ([("filter", jf)] ++ omitEmpty (path != "") "path" (Json.str path)
          ++ (if size > 0 then
            [("inner_hits", Json.obj [("from", Json.int frm), ("size", Json.int size)])]
            else [])))) ∧
    (∀ f, marshalFilterOp rt f = none →
      marshalNestedDsl rt
          (NestedDsl.mk (some f) path (if size > 0 then some ⟨frm, size⟩ else none)) = none) ∧
    (∀ j, marshalNestedDsl rt
          (NestedDsl.mk inner path (if size > 0 then some ⟨frm, size⟩ else none)) = some j →
      ("inner_hits" ∈ j.keys ↔ size > 0)) := by
  have hA : (q.Nested path inner frm size).NestedD =
      some (NestedDsl.mk inner path (if size > 0 then some ⟨frm, size⟩ else none)) := by
    cases q
    rfl
  have hB : marshalNestedDsl rt
      (NestedDsl.mk none path (if size > 0 then some ⟨frm, size⟩ else none)) =
      some (Json.obj (omitEmpty (path != "") "path" (Json.str path)
        ++ (if size > 0 then
          [("inner_hits", Json.obj [("from", Json.int frm), ("size", Json.int size)])]
          else []))) := by
    rw [marshalNestedDsl_nil]
    by_cases hs : size > 0
    · simp only [hs, if_true]
      rfl
    · simp only [hs, if_false]
  have hC : ∀ f jf, marshalFilterOp rt f = some jf →
      marshalNestedDsl rt
          (NestedDsl.mk (some f) path (if size > 0 then some ⟨frm, size⟩ else none)) =
        some (Json.obj ([("filter", jf)] ++ omitEmpty (path != "") "path" (Json.str path)
          ++ (if size > 0 then
            [("inner_hits", Json.obj [("from", Json.int frm), ("size", Json.int size)])]
            else []))) := by
    intro f jf hf
    rw [marshalNestedDsl_some, hf]
    by_cases hs : size > 0
    · simp only [hs, if_true]
      rfl
    · simp only [hs, if_false]
  have hD : ∀ f, marshalFilterOp rt f = none →
      marshalNestedDsl rt
          (NestedDsl.mk (some f) path (if size > 0 then some ⟨frm, size⟩ else none)) = none := by
    intro f hf
    rw [marshalNestedDsl_some, hf]
  refine ⟨hA, hB, hC, hD, ?_⟩
  intro j hj
  cases inner with
  | none =>
    rw [hB] at hj
    cases hj
    by_cases hs : size > 0
    · by_cases hp : (path != "") = true <;> simp [Json.keys, omitEmpty, hs, hp]
    · by_cases hp : (path != "") = true <;> simp [Json.keys, omitEmpty, hs, hp]
  | some f =>
    cases hf : marshalFilterOp rt f with
    | none => rw [hD f hf] at hj; cases hj
    | some jf =>
      rw [hC f jf hf] at hj
      cases hj
      by_cases hs : size > 0
      · by_cases hp : (path != "") = true <;> simp [Json.keys, omitEmpty, hs, hp]
      · by_cases hp : (path != "") = true <;> simp [Json.keys, omitEmpty, hs, hp]

/-- The example of C15: a nested term filter under `comments` with ten inner hits from 0,
and the same with size 0. -/
theorem nested_inner_hits_witness :
    marshalFilterOp strictRuntime termUser =
      some (Json.obj [("term", Json.obj [("user", Json.str "kimchy")])]) ∧
    marshalFilterOp strictRuntime (Filter.Nested "comments" (some termUser) 0 10) =
      some (Json.obj [("nested", Json.obj [
        ("filter", Json.obj [("term", Json.obj [("user", Json.str "kimchy")])]),
        ("path", Json.str "comments"),
        ("inner_hits", Json.obj [("from", Json.int 0), ("size", Json.int 10)])])]) ∧
    marshalNestedDsl strictRuntime (NestedDsl.mk (some termUser) "comments" none) =
      some (Json.obj [
        ("filter", Json.obj [("term", Json.obj [("user", Json.str "kimchy")])]),
        ("path", Json.str "comments")]) :=
  ⟨rfl, rfl,
    ((nested_inner_hits strictRuntime Filter "comments" (some termUser) 0 0).2.2.1 termUser _
      rfl).trans rfl⟩

/-! ## `QueryDsl.Fields` -/

/-- The split has one piece more than the text has commas. -/
theorem splitCommaAux_length (cs : List Char) :
    ∀ cur, (splitCommaAux cs cur).length = cs.count ',' + 1 := by
  induction cs with
  | nil => intro cur; rfl
  | cons c cs ih =>
    intro cur
    by_cases hc : c = ','
    · subst hc
      simp [splitCommaAux, ih]
    · have hc' : (c == ',') = false := by simpa using hc
      simp [splitCommaAux, hc, ih, List.count_cons, hc']

theorem splitCommaAux_ne_nil (cs cur : List Char) : splitCommaAux cs cur ≠ [] := by
  intro h
  have := splitCommaAux_length cs cur
  rw [h] at this
  simp at this

theorem intercalate_cons_cons (sep a b : List Char) (l : List (List Char)) :
    List.intercalate sep (a :: b :: l) = a ++ sep ++ List.intercalate sep (b :: l) := by
  simp [List.intercalate, List.intersperse]

/-- The pieces of the split, put together again with commas, give the text back. -/
theorem splitCommaAux_join (cs : List Char) :
    ∀ cur, List.intercalate [','] ((splitCommaAux cs cur).map String.data) =
      cur.reverse ++ cs := by
  induction cs with
  | nil =>
    intro cur
    simp [splitCommaAux, List.intercalate, List.intersperse]
  | cons c cs ih =>
    intro cur
    by_cases hc : c = ','
    · subst hc
      have hne := splitCommaAux_ne_nil cs []
      have h0 := ih []
      cases hs : splitCommaAux cs [] with
      | nil => exact absurd hs hne
      | cons p ps =>
        rw [hs] at h0
        simp only [splitCommaAux, if_true, hs, List.map_cons]
        rw [intercalate_cons_cons]
        simp only [List.map_cons] at h0
        rw [h0]
        simp
    · simp only [splitCommaAux, hc, if_false]
      rw [ih (c :: cur)]
      simp

/-- No piece of the split holds a comma. -/
theorem splitCommaAux_no_comma (cs : List Char) :
    ∀ cur, ',' ∉ cur → ∀ p ∈ splitCommaAux cs cur, ',' ∉ p.data := by
  induction cs with
  | nil =>
    intro cur hcur p hp
    simp only [splitCommaAux, List.mem_singleton] at hp
    subst hp
    simpa using hcur
  | cons c cs ih =>
    intro cur hcur p hp
    by_cases hc : c = ','
    · subst hc
      simp only [splitCommaAux, if_true, List.mem_cons] at hp
      rcases hp with rfl | hp
      · simpa using hcur
      · exact ih [] (by simp) p hp
    · simp only [splitCommaAux, hc, if_false] at hp
      refine ih (c :: cur) ?_ p hp
      simp only [List.mem_cons, not_or]
      exact ⟨fun h => hc h.symm, hcur⟩

theorem splitComma_length_eq_one (fields : String) :
    (splitComma fields).length = 1 ↔ ',' ∉ fields.data := by
  unfold splitComma
  rw [splitCommaAux_length]
  simp [List.count_eq_zero]

theorem fields_qs (q : QueryDsl) (fields search exists_ missing : String) :
    (q.Fields fields search exists_ missing).QueryEmbed.Qs =
      some (if (splitComma fields).length = 1 then
        ⟨"", fields, search, exists_, missing, []⟩
        else ⟨"", "", search, exists_, missing, splitComma fields⟩) := by
  cases q with
  | mk e fv fwv =>
    cases e with
    | mk ma terms qs prefx bools cs fs =>
      simp only [QueryDsl.Fields, QueryDsl.QueryEmbed, QueryEmbed.Qs, NewQueryString]
      split <;> rfl

/-- C17 as stated fails: after `Fields("", ...)` neither the default field nor the field
list is used, both are empty and neither is written to the output. -/
theorem fields_exactly_one_counterexample :
    (Query.Fields "" "search_for" "" "").QueryEmbed.Qs =
      some ⟨"", "", "search_for", "", "", []⟩ ∧
    (⟨"", "", "search_for", "", "", []⟩ : QueryString).DefaultField = "" ∧
    (⟨"", "", "search_for", "", "", []⟩ : QueryString).Fields = [] ∧
    marshalQueryString ⟨"", "", "search_for", "", "", []⟩ =
      Json.obj [("query", Json.str "search_for")] :=
  ⟨rfl, rfl, rfl, rfl⟩

/-- C17, amended. After `Fields(fields, search, exists, missing)` the query string is a new
one with `Query = search`, `Exists = exists` and `Missing = missing`. Without comma in
`fields` it has `DefaultField = fields` and no field list; with a comma it has the field
list that is the split of `fields` at the commas (at least two pieces, none holding a
comma, giving `fields` back when joined by commas) and an empty `DefaultField`. The two
are never both set; exactly one of them is set when `fields` is not the empty text, and
neither when it is. -/
theorem fields_query_string (q : QueryDsl) (fields search exists_ missing : String) :
    (',' ∉ fields.data →
      (q.Fields fields search exists_ missing).QueryEmbed.Qs =
        some ⟨"", fields, search, exists_, missing, []⟩) ∧
    (',' ∈ fields.data →
      (q.Fields fields search exists_ missing).QueryEmbed.Qs =
        some ⟨"", "", search, exists_, missing, splitComma fields⟩ ∧
      2 ≤ (splitComma fields).length) ∧
    List.intercalate [','] ((splitComma fields).map String.data) = fields.data ∧
    (∀ p ∈ splitComma fields, ',' ∉ p.data) ∧
    (∀ qs, (q.Fields fields search exists_ missing).QueryEmbed.Qs = some qs →
      qs.Query = search ∧ qs.Exists = exists_ ∧ qs.Missing = missing ∧
      qs.DefaultOperator = "" ∧ (qs.DefaultField = "" ∨ qs.Fields = []) ∧
      (fields ≠ "" →
        (qs.DefaultField ≠ "" ∧ qs.Fields = []) ∨ (qs.DefaultField = "" ∧ qs.Fields ≠ [])) ∧
      (fields = "" → qs.DefaultField = "" ∧ qs.Fields = [])) := by
  have hone := splitComma_length_eq_one fields
  refine ⟨?_, ?_, ?_, ?_, ?_⟩
  · intro h
    rw [fields_qs, if_pos (hone.mpr h)]
  · intro h
    have hne : ¬ (splitComma fields).length = 1 := fun h1 => (hone.mp h1) h
    refine ⟨by rw [fields_qs, if_neg hne], ?_⟩
    have hlen : (splitComma fields).length = fields.data.count ',' + 1 :=
      splitCommaAux_length fields.data []
    have hpos : 0 < fields.data.count ',' := List.count_pos_iff.mpr h
    omega
  · have := splitCommaAux_join fields.data []
    simpa [splitComma] using this
  · exact splitCommaAux_no_comma fields.data [] (by simp)
  · intro qs hqs
    rw [fields_qs] at hqs
    by_cases hlen : (splitComma fields).length = 1
    · rw [if_pos hlen] at hqs
      cases hqs
      exact ⟨rfl, rfl, rfl, rfl, Or.inr rfl, fun hf => Or.inl ⟨hf, rfl⟩, fun hf => ⟨hf, rfl⟩⟩
    · rw [if_neg hlen] at hqs
      cases hqs
      refine ⟨rfl, rfl, rfl, rfl, Or.inl rfl,
        fun _ => Or.inr ⟨rfl, splitCommaAux_ne_nil fields.data []⟩, ?_⟩
      intro hf
      subst hf
      exact absurd rfl hlen

/-- The examples of amended C17, as in the comment on `Fields`: one field name, and three
names separated by commas. -/
theorem fields_query_string_witness :
    ',' ∉ "fieldname".data ∧
    ((Query.Search "old").Fields "fieldname" "search_for" "" "").QueryEmbed.Qs =
      some ⟨"", "fieldname", "search_for", "", "", []⟩ ∧
    ',' ∈ "fieldname,field2,field3".data ∧
    (Query.Fields "fieldname,field2,field3" "search_for" "field_exists" "").QueryEmbed.Qs =
      some ⟨"", "", "search_for", "field_exists", "", ["fieldname", "field2", "field3"]⟩ :=
  ⟨by decide,
    (fields_query_string (Query.Search "old") "fieldname" "search_for" "" "").1 (by decide),
    by decide,
    ((fields_query_string Query "fieldname,field2,field3" "search_for" "field_exists"
      "").2.1 (by decide)).1.trans rfl⟩

end Elastigo
